/-
  Spec2Proof — a verification development for the sales-forecast repository.

  Shallow embedding of the revenue-recognition / cash-flow projection engine:
  the final-amount resolver and override merge (data/data_manager.py),
  the time-decay predictor (DataManager._compute_time_decay_factor),
  the cash-flow projector and runway calculator (core/cash_flow_helper.py),
  the payment-template catalog and validator (payment_templates.py),
  the schedule resolver (core/unified_cashflow_service.py,
  data/payment_schedule_service.py), and the win-probability parser
  (DataManager._parse_rate_percent).

  Money and ratios are embedded as exact rationals (ℚ): the Python code uses
  IEEE floats, and every claim settled here concerns the algebraic structure
  of the computations (which branch is taken, what sums to what), not
  float-level rounding error.  Dates are embedded as calendar triples where
  the code does calendar arithmetic, and as integer day numbers where the
  code only subtracts timestamps.  The file is laid out as definitions
  first, then the theorems about them.
-/
import Mathlib

namespace SalesForecast

/-! ### Rounding

`pandas.Series.round(2)` rounds half to even (IEEE / numpy semantics).
Embedded exactly on ℚ. -/

/-- Round a rational to the nearest integer, ties to the even neighbour
(numpy / IEEE round-half-even, as used by `DataFrame.round`). -/
def roundHalfEven (q : ℚ) : ℤ :=
  if q - ⌊q⌋ < 1/2 then ⌊q⌋
  else if 1/2 < q - ⌊q⌋ then ⌊q⌋ + 1
  else if ⌊q⌋ % 2 = 0 then ⌊q⌋ else ⌊q⌋ + 1

/-- `x.round(2)` from `DataManager._standardize_data`: two-decimal
half-even rounding. -/
def round2 (q : ℚ) : ℚ := (roundHalfEven (q * 100) : ℚ) / 100

/-! ### Calendar dates

`CashFlowHelper._add_months` (core/cash_flow_helper.py lines 430-437) does
month-accurate arithmetic with Python's floor-division semantics
(`//` ↦ `Int.fdiv`, `%` ↦ `Int.emod`) and clamps the day with
`calendar.monthrange`.  `dateutil.relativedelta(months=k)` and
`pd.DateOffset(months=1)` have the same shift-and-clamp semantics; both are
embedded by the same function. -/

/-- A calendar date `year-month-day`. -/
structure Date where
  year : ℤ
  month : ℤ
  day : ℤ
  deriving DecidableEq, Repr

/-- Gregorian leap-year rule, as implemented by Python's `calendar` module. -/
def isLeapYear (y : ℤ) : Bool :=
  y % 4 = 0 && (y % 100 ≠ 0 || y % 400 = 0)

/-- `calendar.monthrange(y, m)[1]`: number of days in a month. -/
def daysInMonth (y m : ℤ) : ℤ :=
  if m = 2 then (if isLeapYear y then 29 else 28)
  else if m = 4 ∨ m = 6 ∨ m = 9 ∨ m = 11 then 30
  else 31

/-- A structurally valid calendar date. -/
def Date.Valid (d : Date) : Prop :=
  1 ≤ d.month ∧ d.month ≤ 12 ∧ 1 ≤ d.day ∧ d.day ≤ daysInMonth d.year d.month

instance (d : Date) : Decidable d.Valid := by
  unfold Date.Valid; infer_instance

/-- `CashFlowHelper._add_months`: shift by `k` calendar months, clamping the
day-of-month to the last valid day of the target month.  Python's `//` and
`%` are floor division and floor modulus, so negative offsets work too. -/
def addMonths (d : Date) (k : ℤ) : Date :=
  { year := d.year + Int.fdiv (d.month - 1 + k) 12
    month := (d.month - 1 + k) % 12 + 1
    day := min d.day
      (daysInMonth (d.year + Int.fdiv (d.month - 1 + k) 12)
        ((d.month - 1 + k) % 12 + 1)) }

/-- Absolute month index of a date (`12*year + (month-1)`); two dates are in
the same calendar month iff their indices agree.  It stands for the
`"%Y-%m"` month strings of the source, whose ordering and equality agree
with the index's. -/
def monthIndex (d : Date) : ℤ := 12 * d.year + (d.month - 1)

/-! ### Override merge and final amount

`DataManager._fetch_overrides_latest` (data_manager.py lines 277-313)
coerces `updated_at` with `pd.to_datetime(errors="coerce")` (unparsable ↦
`NaT`), sorts ascending (`NaT` placed last) and reduces with
`groupby("record_id").last()`.  Pandas `GroupBy.last()` takes the last
NON-NULL entry of each column within the group, so the merged
`override_amount` of an id is the amount of the sort-latest row whose
amount is non-null — a trailing NaN-amount row does not mask an earlier
non-null amount.  `updated_at` is embedded as `Option ℤ` with `none` =
`NaT`; "later in the sort order" is the fold below, where `none` beats
every timestamp and later rows win ties. -/

/-- One row of the overrides table after column normalisation:
`record_id`, `override_amount` (`none` = NaN), `updated_at`
(`none` = NaT). -/
structure OverrideRow where
  record_id : String
  override_amount : Option ℚ
  updated_at : Option ℤ
  deriving DecidableEq, Repr

/-- `a ≤ b` in the `sort_values("updated_at")` order with `NaT` last:
`none` is greatest. -/
def updLE (a b : Option ℤ) : Bool :=
  match a, b with
  | _, none => true
  | none, some _ => false
  | some x, some y => x ≤ y

/-- One step of the "sort ascending, keep the last" reduction: the incoming
row `r` replaces the accumulator when it sorts at or after it (later rows
win ties, as in a stable sort followed by `last()`). -/
def latestStep (acc : Option OverrideRow) (r : OverrideRow) :
    Option OverrideRow :=
  match acc with
  | none => some r
  | some a => if updLE a.updated_at r.updated_at then some r else some a

/-- The row whose `override_amount` survives
`groupby("record_id").last()` for one `record_id`: among the id's rows
that carry a non-null amount (`last()` skips null entries per column),
the one that sorts last by `updated_at`; `none` when the id has no
override row with a non-null amount. -/
def latestOverrideRow (ovs : List OverrideRow) (rid : String) :
    Option OverrideRow :=
  (ovs.filter (fun r => r.record_id = rid ∧ r.override_amount ≠ none)).foldl
    latestStep none

/-- The merged `override_amount` column of
`_fetch_overrides_latest` for one `record_id` (the value the left merge
puts into `人工纠偏金额`). -/
def latestOverrideAmount (ovs : List OverrideRow) (rid : String) :
    Option ℚ :=
  (latestOverrideRow ovs rid).bind OverrideRow.override_amount

/-- `_system_pred_amount` (data_manager.py line 218): contract amount ×
win-probability percent / 100 × time-decay factor.  `rate` is the parsed
`_成单率_num` value (`none` = NaN, turned into 0 by `fillna(0.0)` on
line 214). -/
def systemPredAmount (amt : ℚ) (rate : Option ℚ) (decay : ℚ) : ℚ :=
  amt * (rate.getD 0 / 100) * decay

/-- `_final_amount` (data_manager.py lines 236-249): the merged override
amount when present and non-null, else the system prediction, rounded to 2
decimals.  The `fillna(0.0)` default never fires here because amount and
rate parsing already default missing inputs to 0, so the prediction is a
number for every row. -/
def finalAmount (ovs : List OverrideRow) (rid : String)
    (amt : ℚ) (rate : Option ℚ) (decay : ℚ) : ℚ :=
  round2 ((latestOverrideAmount ovs rid).getD
    (systemPredAmount amt rate decay))

/-! ### Time-decay factor

`DataManager._compute_time_decay_factor` (data_manager.py lines 159-192)
picks ONE date column for the whole frame — the first of
`预计截止时间` (expected completion), `交付时间` (delivery), `开始时间`
(start) that contains at least one parseable date — and computes
`exp(-λ · clip((col - base)/30, 0))` per row, with NaN deltas filled
with 0.  Dates are embedded as integer day numbers (the code only ever
subtracts timestamps here); the factor of row `i` is
`Real.exp (exponent i)` for the computable exponent below, and the code's
literal `1.0` results are `Real.exp 0`. -/

/-- One project row as seen by the decay computation: the three candidate
date columns, as day numbers (`none` = NaT / missing value). -/
structure DecayRow where
  expectedEnd : Option ℤ
  deliver : Option ℤ
  start : Option ℤ
  deriving DecidableEq, Repr

/-- The date column the code selects for the whole frame: the first of
expected-completion, delivery, start with at least one non-null entry
(`parsed.notna().any()`); `none` when all three are entirely null or
absent. -/
def chosenDates (rows : List DecayRow) : Option (List (Option ℤ)) :=
  if (rows.map DecayRow.expectedEnd).any Option.isSome then
    some (rows.map DecayRow.expectedEnd)
  else if (rows.map DecayRow.deliver).any Option.isSome then
    some (rows.map DecayRow.deliver)
  else if (rows.map DecayRow.start).any Option.isSome then
    some (rows.map DecayRow.start)
  else none

/-- Exponent for one cell of the chosen column:
`-λ · max 0 (days) / 30`, and `0` for a null cell
(`clip(lower=0).fillna(0.0)`). -/
def cellExponent (lam : ℚ) (base : ℤ) (dq : Option ℤ) : ℚ :=
  match dq with
  | none => 0
  | some d => -lam * (max 0 ((d - base : ℤ) : ℚ) / 30)

/-- `_compute_time_decay_factor`, as the list of per-row exponents: the
factor of row `i` is `Real.exp` of entry `i`.  `λ ≤ 0` and the
no-usable-column case yield the constant-`1.0` series, i.e. exponent 0. -/
def decayExponents (lam : ℚ) (base : ℤ) (rows : List DecayRow) : List ℚ :=
  if lam ≤ 0 then rows.map (fun _ => 0)
  else
    match chosenDates rows with
    | none => rows.map (fun _ => 0)
    | some ds => ds.map (cellExponent lam base)

/-- Claim-side per-row decay exponent, stated from the spec's words: the
milestone date is THIS ROW's first non-null date among expected-completion,
delivery and start; exponent 0 (factor 1.0) when `λ ≤ 0` or none of the
three dates is available for the row. -/
def specRowDecayExponent (lam : ℚ) (base : ℤ) (r : DecayRow) : ℚ :=
  if lam ≤ 0 then 0
  else
    match r.expectedEnd with
    | some d => cellExponent lam base (some d)
    | none =>
      match r.deliver with
      | some d => cellExponent lam base (some d)
      | none =>
        match r.start with
        | some d => cellExponent lam base (some d)
        | none => 0

/-! ### Cash-flow projection (core/cash_flow_helper.py)

`CashFlowHelper.calculate_single_project_cash_flow` expands one project
row into up to four dated entries (down payment / second payment / final
payment / retention).  Month strings `"%Y-%m"` are embedded as the
absolute month index `monthIndex`. -/

/-- The hard-wired per-stage fallback of `_resolve_payment_date`:
`"start"`, `"delivery"`, `"delivery_plus_one"`. -/
inductive FallbackRule
  | start
  | delivery
  | deliveryPlusOne
  deriving DecidableEq, Repr

/-- `CashFlowHelper._resolve_payment_date` (lines 411-428): the explicit
per-stage date wins when present; otherwise the stage's fallback rule is
applied (`delivery_plus_one` = delivery date + 1 calendar month via
`pd.DateOffset(months=1)`, and null when the delivery date is null too). -/
def resolvePaymentDate (explicitDate startDate deliveryDate : Option Date)
    (fallback : FallbackRule) : Option Date :=
  match explicitDate with
  | some d => some d
  | none =>
    match fallback with
    | .start => startDate
    | .delivery => deliveryDate
    | .deliveryPlusOne => deliveryDate.map (fun t => addMonths t 1)

/-- One project row as consumed by the cash-flow expansion: the revenue
base (`_get_project_revenue`, i.e. the `_final_amount` column), the four
stage ratios (percent, `_safe_float` defaults missing to 0), the four
explicit stage dates, and the start / delivery milestone dates. -/
structure ProjectRow where
  customer : String
  businessLine : String
  revenue : ℚ
  downRatio : ℚ
  secondRatio : ℚ
  finalRatio : ℚ
  retentionRatio : ℚ
  downDate : Option Date
  secondDate : Option Date
  finalDate : Option Date
  retentionDate : Option Date
  startDate : Option Date
  deliveryDate : Option Date
  deriving DecidableEq, Repr

/-- One emitted cash-flow entry
(`项目名称/业务线/现金流类型/金额/支付日期/支付月份`). -/
structure CashFlowEntry where
  projectName : String
  businessLine : String
  stageType : String
  amount : ℚ
  payDate : Date
  month : ℤ
  deriving DecidableEq, Repr

/-- The `stage_configs` table of `calculate_single_project_cash_flow`
(lines 35-44), with each stage's ratio and resolved payment date. -/
def stagePlan (p : ProjectRow) : List (String × ℚ × Option Date) :=
  [("首付款", p.downRatio,
      resolvePaymentDate p.downDate p.startDate p.deliveryDate .start),
   ("次付款", p.secondRatio,
      resolvePaymentDate p.secondDate p.startDate p.deliveryDate .delivery),
   ("尾款", p.finalRatio,
      resolvePaymentDate p.finalDate p.startDate p.deliveryDate
        .deliveryPlusOne),
   ("质保金", p.retentionRatio,
      resolvePaymentDate p.retentionDate p.startDate p.deliveryDate
        .deliveryPlusOne)]

/-- The loop body of `calculate_single_project_cash_flow` (lines 42-57):
a stage is emitted only when its ratio is positive, its payment date
resolved to a non-null value, and the amount `revenue × ratio/100` is
positive; otherwise that stage produces nothing. -/
def emitStage (p : ProjectRow) (s : String × ℚ × Option Date) :
    Option CashFlowEntry :=
  match s.2.2 with
  | none => none
  | some d =>
    if 0 < s.2.1 ∧ 0 < p.revenue * (s.2.1 / 100) then
      some { projectName := p.customer, businessLine := p.businessLine,
             stageType := s.1, amount := p.revenue * (s.2.1 / 100),
             payDate := d, month := monthIndex d }
    else none

/-- `CashFlowHelper.calculate_single_project_cash_flow`. -/
def calculate_single_project_cash_flow (p : ProjectRow) :
    List CashFlowEntry :=
  (stagePlan p).filterMap (emitStage p)

/-- Sum of stage-ratio percents of a row. -/
def ratioSum (p : ProjectRow) : ℚ :=
  p.downRatio + p.secondRatio + p.finalRatio + p.retentionRatio

/-- Total amount of a list of entries (`cash_flow_df["金额"].sum()`). -/
def entryAmountSum (es : List CashFlowEntry) : ℚ :=
  (es.map CashFlowEntry.amount).sum

/-- Amount of one month group (`groupby("支付月份")["金额"].sum()` for key
`k`; 0 when the month never occurs). -/
def monthGroupTotal (es : List CashFlowEntry) (k : ℤ) : ℚ :=
  entryAmountSum (es.filter (fun e => e.month = k))

/-- The distinct month keys in groupby order (pandas sorts group keys
ascending; `sort_values("月份")` then changes nothing). -/
def monthKeys (es : List CashFlowEntry) : List ℤ :=
  ((es.map CashFlowEntry.month).dedup).mergeSort (fun a b => a ≤ b)

/-- `CashFlowHelper.calculate_monthly_summary` (lines 105-145): rows
`(月份, 月度现金流, 项目数量)`, one per distinct month, amounts summed and
project names counted distinctly. -/
def calculate_monthly_summary (es : List CashFlowEntry) :
    List (ℤ × ℚ × ℕ) :=
  (monthKeys es).map (fun k =>
    (k, monthGroupTotal es k,
     ((es.filter (fun e => e.month = k)).map
        CashFlowEntry.projectName).dedup.length))

/-! ### Forecast (CashFlowHelper.forecast_cash_flow, lines 296-350) -/

/-- The generated month axis with the joined monthly amounts: month
`current + i` for `i < months_ahead`, amount = the month's groupby total
(the left join plus `fillna(0)`: a month missing from the groupby has no
entries, so its group total is 0). -/
def forecastRows (es : List CashFlowEntry) (currentMonth : ℤ)
    (monthsAhead : ℕ) : List (ℤ × ℚ) :=
  (List.range monthsAhead).map
    (fun (i : ℕ) => (currentMonth + (i : ℤ),
               monthGroupTotal es (currentMonth + (i : ℤ))))

/-- Attach the running cumulative sum (`cumsum()`) to each row. -/
def cumRows (acc : ℚ) : List (ℤ × ℚ) → List (ℤ × ℚ × ℚ)
  | [] => []
  | (k, a) :: rest => (k, a, acc + a) :: cumRows (acc + a) rest

/-- `CashFlowHelper.forecast_cash_flow`: empty input returns the empty
table at once; otherwise `months_ahead` consecutive months from the
current month with amounts and cumulative sums, and (when
`fill_zero_months` is false) zero-flow months dropped AFTER the cumulative
sum was computed. -/
def forecast_cash_flow (es : List CashFlowEntry) (currentMonth : ℤ)
    (monthsAhead : ℕ) (fillZeroMonths : Bool) : List (ℤ × ℚ × ℚ) :=
  if es.isEmpty then []
  else if fillZeroMonths then cumRows 0 (forecastRows es currentMonth monthsAhead)
  else (cumRows 0 (forecastRows es currentMonth monthsAhead)).filter
    (fun r => r.2.1 ≠ 0)

/-! ### Runway (CashFlowHelper.calculate_runway, lines 439-504) -/

/-- One row of the runway monthly table
(`月份/收入/支出/净现金流/累计现金余额`). -/
structure RunwayRow where
  month : ℤ
  income : ℚ
  expense : ℚ
  netFlow : ℚ
  balance : ℚ
  deriving DecidableEq, Repr

/-- The result dictionary of `calculate_runway`. -/
structure RunwayResult where
  runway_months : ℕ
  min_cash_balance : ℚ
  monthly_summary : List RunwayRow
  deriving DecidableEq, Repr

/-- The cumulative-balance loop (lines 482-491):
`balance[0] = initial + net[0]`, `balance[i] = balance[i-1] + net[i]`. -/
def balancesFrom (initial : ℚ) : List ℚ → List ℚ
  | [] => []
  | n :: ns => (initial + n) :: balancesFrom (initial + n) ns

/-- `column.min()` of a possibly-empty list, with a default for `[]`. -/
def listMinD (dflt : ℚ) : List ℚ → ℚ
  | [] => dflt
  | x :: xs => xs.foldl min x

/-- The `monthly_summary` frame built from the forecast (lines 474-491):
income = forecast amount, constant expense, net flow, running balance. -/
def runwayRows (forecastTable : List (ℤ × ℚ × ℚ))
    (expense initial : ℚ) : List RunwayRow :=
  (forecastTable.zip
    (balancesFrom initial (forecastTable.map (fun r => r.2.1 - expense)))).map
    (fun rb =>
      { month := rb.1.1, income := rb.1.2.1, expense := expense,
        netFlow := rb.1.2.1 - expense, balance := rb.2 })

/-- `CashFlowHelper.calculate_runway`: the no-data result for empty input
(runway 0, min balance = initial cash, empty table, both for an empty
entry list and for an empty forecast), else the balance table, the count
of leading positive-balance months (the loop breaks at the first balance
≤ 0), and the minimum balance over the whole table. -/
def calculate_runway (es : List CashFlowEntry)
    (initial_cash monthly_expense : ℚ) (monthsAhead : ℕ)
    (currentMonth : ℤ) : RunwayResult :=
  if es.isEmpty then
    { runway_months := 0, min_cash_balance := initial_cash,
      monthly_summary := [] }
  else if (forecast_cash_flow es currentMonth monthsAhead true).isEmpty then
    { runway_months := 0, min_cash_balance := initial_cash,
      monthly_summary := [] }
  else
    { runway_months :=
        (((runwayRows (forecast_cash_flow es currentMonth monthsAhead true)
            monthly_expense initial_cash).map RunwayRow.balance).takeWhile
          (fun b => 0 < b)).length
      min_cash_balance :=
        listMinD initial_cash
          ((runwayRows (forecast_cash_flow es currentMonth monthsAhead true)
            monthly_expense initial_cash).map RunwayRow.balance)
      monthly_summary :=
        runwayRows (forecast_cash_flow es currentMonth monthsAhead true)
          monthly_expense initial_cash }

/-! ### Payment-template catalog (payment_templates.py) -/

/-- One template stage: name, ratio (fraction of final amount), month
offset against the base date, base date selector (`"开始时间"` = project
start, `"交付时间"` = delivery). -/
structure TemplateStage where
  name : String
  ratio : ℚ
  offset_months : ℤ
  base : String
  deriving DecidableEq, Repr

/-- `PAYMENT_TEMPLATES` (payment_templates.py lines 15-58), verbatim. -/
def PAYMENT_TEMPLATES : List (String × List TemplateStage) :=
  [("标准三笔(5-4-1)",
    [⟨"首付款", 0.5, -1, "开始时间"⟩,
     ⟨"到货验收款", 0.4, 0, "交付时间"⟩,
     ⟨"质保金", 0.1, 12, "交付时间"⟩]),
   ("标准三笔(3-6-1)",
    [⟨"首付款", 0.3, -1, "开始时间"⟩,
     ⟨"到货验收款", 0.6, 0, "交付时间"⟩,
     ⟨"质保金", 0.1, 12, "交付时间"⟩]),
   ("四笔分期(3-3-3-1)",
    [⟨"首付款", 0.3, 0, "开始时间"⟩,
     ⟨"到货款", 0.3, 0, "交付时间"⟩,
     ⟨"验收款", 0.3, 1, "交付时间"⟩,
     ⟨"质保金", 0.1, 12, "交付时间"⟩]),
   ("四笔分期(2-3-4-1)",
    [⟨"预付款", 0.2, 0, "开始时间"⟩,
     ⟨"发货款", 0.3, -1, "交付时间"⟩,
     ⟨"验收款", 0.4, 0, "交付时间"⟩,
     ⟨"质保金", 0.1, 12, "交付时间"⟩]),
   ("五笔分期(2-2-3-2-1)",
    [⟨"预付款", 0.2, 0, "开始时间"⟩,
     ⟨"发货款", 0.2, -1, "交付时间"⟩,
     ⟨"到货款", 0.3, 0, "交付时间"⟩,
     ⟨"验收款", 0.2, 1, "交付时间"⟩,
     ⟨"质保金", 0.1, 12, "交付时间"⟩]),
   ("设备租赁(等额分期)",
    [⟨"首付款", 0.2, 0, "开始时间"⟩,
     ⟨"季付1", 0.2, 3, "开始时间"⟩,
     ⟨"季付2", 0.2, 6, "开始时间"⟩,
     ⟨"季付3", 0.2, 9, "开始时间"⟩,
     ⟨"尾款", 0.2, 12, "开始时间"⟩]),
   ("全款", [⟨"全款", 1, 0, "开始时间"⟩]),
   ("货到付款", [⟨"全款", 1, 0, "交付时间"⟩])]

/-- `DEFAULT_TEMPLATE_BY_BUSINESS` (lines 61-65). -/
def DEFAULT_TEMPLATE_BY_BUSINESS : List (String × String) :=
  [("光谱设备/服务", "标准三笔(5-4-1)"),
   ("配液设备", "标准三笔(5-4-1)"),
   ("自动化项目", "四笔分期(3-3-3-1)")]

/-- `DEFAULT_TEMPLATE` (line 68). -/
def DEFAULT_TEMPLATE : String := "标准三笔(5-4-1)"

/-- `get_template`: the named template, or the catalog-wide default when
the name is unknown. -/
def get_template (template_name : String) : List TemplateStage :=
  (PAYMENT_TEMPLATES.lookup template_name).getD
    ((PAYMENT_TEMPLATES.lookup DEFAULT_TEMPLATE).getD [])

/-- `get_default_template_for_business`: the business line's mapped
template name, or `DEFAULT_TEMPLATE` for an unmapped line. -/
def get_default_template_for_business (business_line : String) : String :=
  (DEFAULT_TEMPLATE_BY_BUSINESS.lookup business_line).getD DEFAULT_TEMPLATE

/-- One stage row as checked by `validate_template`: `s.get("ratio", 0)`
and `s.get("name")` default missing fields to 0 / the empty string. -/
structure VStage where
  name : String
  ratio : ℚ
  deriving DecidableEq, Repr

/-- `validate_template` (payment_templates.py lines 86-106), as its
Boolean verdict (the source also returns a display message string, not
modelled): an empty stage list is invalid; the ratio total must lie
within 1.0 ± 0.01 (`abs(total - 1.0) > 0.01` rejects); every stage needs
a non-empty name and a strictly positive ratio. -/
def validate_template (stages : List VStage) : Bool :=
  if stages = [] then false
  else if 1/100 < |((stages.map VStage.ratio).sum) - 1| then false
  else if stages.any (fun s => s.name = "" ∨ s.ratio ≤ 0) then false
  else true

/-! ### Persisted schedules and stage selection
(unified_cashflow_service.py, payment_schedule_service.py) -/

/-- One stage of a persisted (or template-applied) schedule, with its
resolved date (the source stores epoch-ms; embedded as a calendar date,
`none` = null). -/
structure SavedStage where
  name : String
  ratio : ℚ
  date : Option Date
  deriving DecidableEq, Repr

/-- One row of the payment-schedule table, with `payment_stages` already
JSON-decoded (an empty or undecodable blob decodes to `[]`, exactly the
`json.loads`-with-fallback behaviour of `get_project_payment_stages`). -/
structure ScheduleRow where
  record_id : String
  template_name : String
  stages : List SavedStage
  deriving DecidableEq, Repr

/-- `UnifiedCashFlowService.get_project_payment_stages`: the FIRST row
matching the record id (`hit.iloc[0]`), or `("", [])` when none. -/
def get_project_payment_stages (schedules : List ScheduleRow)
    (rid : String) : String × List SavedStage :=
  match schedules.find? (fun r => r.record_id = rid) with
  | none => ("", [])
  | some r => (r.template_name, r.stages)

/-- `PaymentScheduleService.apply_template` /
`UnifiedCashFlowService.apply_template_with_dates`: per template stage,
base date = the project's start date for `"开始时间"`, else the delivery
date; stage date = base + offset months (`relativedelta(months=offset)`,
i.e. `addMonths`), null when the base date is null. -/
def apply_template (template_stages : List TemplateStage)
    (start_date delivery_date : Option Date) : List SavedStage :=
  template_stages.map (fun stage =>
    { name := stage.name, ratio := stage.ratio,
      date := (if stage.base = "开始时间" then start_date
               else delivery_date).map
        (fun b => addMonths b stage.offset_months) })

/-- The stage-selection step of
`UnifiedCashFlowService.calculate_project_cash_flow` (lines 199-206): the
persisted stages are used verbatim when the decoded list is non-empty
(`if saved_stages:` — an empty list is falsy and falls through), else the
business line's default template is applied to the project dates. -/
def selectStages (schedules : List ScheduleRow) (rid business_line : String)
    (start_date delivery_date : Option Date) : List SavedStage :=
  if (get_project_payment_stages schedules rid).2 ≠ [] then
    (get_project_payment_stages schedules rid).2
  else
    apply_template
      (get_template (get_default_template_for_business business_line))
      start_date delivery_date

/-! ### Win-probability parsing (DataManager._parse_rate_percent) -/

/-- Python `str.strip` whitespace class (the characters relevant here). -/
def isSpace (c : Char) : Bool :=
  c = ' ' ∨ c = '\t' ∨ c = '\n' ∨ c = '\r' ∨ c = '\x0b' ∨ c = '\x0c'

/-- Python `str.strip()`. -/
def stripChars (s : List Char) : List Char :=
  ((s.dropWhile isSpace).reverse.dropWhile isSpace).reverse

/-- Python `str.lower()` (ASCII case folding, which is all the parser
compares against). -/
def toLowerStr (s : List Char) : List Char := s.map Char.toLower

/-- Decimal digit run to a natural number. -/
def digitsToNat (ds : List Char) : ℕ :=
  ds.foldl (fun acc c => 10 * acc + (c.toNat - 48)) 0

/-- Unsigned fixed-point decimal: digits with an optional single point,
at least one digit overall (`"5."`, `".5"` parse; `"."`, `""` do not). -/
def parseUnsigned (s : List Char) : Option ℚ :=
  match s.span Char.isDigit with
  | (intPart, []) =>
    if intPart = [] then none else some (digitsToNat intPart)
  | (intPart, '.' :: frac) =>
    if frac.all Char.isDigit ∧ (intPart ≠ [] ∨ frac ≠ []) then
      some ((digitsToNat intPart : ℚ)
        + (digitsToNat frac : ℚ) / (10 ^ frac.length))
    else none
  | _ => none

/-- `pd.to_numeric(str, errors="coerce")` restricted to plain decimal
notation (optional sign, digits, optional fractional part).  Scientific
notation and infinities are not modelled: at this call site they either
fail this parser or are removed by the 0-100 gate downstream — the same
NaN outcome either way for the values the claim concerns. -/
def parseNumeric (s0 : List Char) : Option ℚ :=
  match stripChars s0 with
  | '+' :: t => parseUnsigned t
  | '-' :: t => (parseUnsigned t).map (fun q => -q)
  | t => parseUnsigned t

/-- Python `str.split(sep)` for a single-character separator
(`"".split("-") = [""]`). -/
def splitOnChar (c : Char) : List Char → List (List Char)
  | [] => [[]]
  | x :: xs =>
    if x = c then [] :: splitOnChar c xs
    else
      match splitOnChar c xs with
      | [] => [[x]]
      | p :: ps => (x :: p) :: ps

/-- The dash-range / plain-number dispatch of `_parse_rate_percent._one`
on the cleaned string (percent signs removed, stripped): when a dash is
present, the first two non-empty stripped parts are parsed and averaged;
if that fails (or fewer than two parts), the whole cleaned string goes to
the numeric parser. -/
def parseRateClean (clean : List Char) : Option ℚ :=
  if clean.contains '-' then
    match ((splitOnChar '-' clean).map stripChars).filter
        (fun p => p ≠ []) with
    | a :: b :: _ =>
      match parseNumeric a, parseNumeric b with
      | some x, some y => some ((x + y) / 2)
      | _, _ => parseNumeric clean
    | _ => parseNumeric clean
  else parseNumeric clean

/-- `_parse_rate_percent._one` on one cell (the caller stripped the cell
with `.str.strip()`; a NaN cell stringifies to `"nan"`): empty, `"nan"`
and `"none"` are NaN at once; otherwise percent signs are removed, the
result stripped, and the range/plain dispatch runs. -/
def parseRateRaw (v : String) : Option ℚ :=
  if stripChars v.toList = [] ∨
      toLowerStr (stripChars v.toList) = "nan".toList ∨
      toLowerStr (stripChars v.toList) = "none".toList then none
  else parseRateClean
    (stripChars ((stripChars v.toList).filter (fun c => ¬ (c = '%'))))

/-- `_parse_rate_percent` for one cell: parse, then gate to [0, 100]
(`parsed.where(parsed.isna() | ((parsed >= 0) & (parsed <= 100)))`);
out-of-range and unparsable values are NaN (`none`). -/
def parse_rate_percent (v : String) : Option ℚ :=
  (parseRateRaw v).bind (fun q => if 0 ≤ q ∧ q ≤ 100 then some q else none)

/-- The whole-column parse (`series.apply(_one)` after stringify/strip):
one independent result per cell. -/
def parseRateColumn (vs : List String) : List (Option ℚ) :=
  vs.map parse_rate_percent

end SalesForecast

namespace SalesForecast

/-! ## Theorems -/

/-! ### Rounding lemmas -/

theorem roundHalfEven_nonneg {q : ℚ} (h : 0 ≤ q) : 0 ≤ roundHalfEven q := by
  have hfl : (0:ℤ) ≤ ⌊q⌋ := Int.le_floor.mpr (by exact_mod_cast h)
  unfold roundHalfEven
  split
  · exact hfl
  · split
    · omega
    · split
      · exact hfl
      · omega

theorem round2_nonneg {q : ℚ} (h : 0 ≤ q) : 0 ≤ round2 q := by
  unfold round2
  have : (0:ℤ) ≤ roundHalfEven (q * 100) :=
    roundHalfEven_nonneg (by positivity)
  have h100 : (0:ℚ) ≤ (roundHalfEven (q * 100) : ℚ) := by exact_mod_cast this
  positivity

/-- Two-decimal rounding is the identity on any rational that already has
at most two decimals. -/
theorem round2_div100 (n : ℤ) : round2 ((n : ℚ) / 100) = (n : ℚ) / 100 := by
  unfold round2 roundHalfEven
  have h1 : ((n : ℚ) / 100 * 100) = ((n : ℤ) : ℚ) := by field_simp
  rw [h1]
  simp only [Int.floor_intCast]
  have h2 : ((n : ℤ) : ℚ) - ((n : ℤ) : ℚ) = 0 := by ring
  rw [h2]
  norm_num

/-- On an integer input, two-decimal rounding is the identity. -/
theorem round2_intCast (n : ℤ) : round2 (n : ℚ) = n := by
  have h : (n : ℚ) = ((n * 100 : ℤ) : ℚ) / 100 := by push_cast; ring
  rw [h, round2_div100]

/-! ### Calendar lemmas -/

theorem daysInMonth_pos (y m : ℤ) : 1 ≤ daysInMonth y m := by
  unfold daysInMonth
  split <;> [split <;> omega; skip]
  split <;> omega

theorem addMonths_monthIndex (d : Date) (k : ℤ) :
    monthIndex (addMonths d k) = monthIndex d + k := by
  unfold addMonths monthIndex
  dsimp only
  have hfd : Int.fdiv (d.month - 1 + k) 12 = (d.month - 1 + k) / 12 :=
    Int.fdiv_eq_ediv _ (by norm_num)
  have hdm : 12 * ((d.month - 1 + k) / 12) + (d.month - 1 + k) % 12
      = d.month - 1 + k := Int.ediv_add_emod _ _
  rw [hfd]
  omega

theorem addMonths_valid (d : Date) (k : ℤ) (hd : d.Valid) :
    (addMonths d k).Valid := by
  obtain ⟨h1, h2, h3, h4⟩ := hd
  unfold addMonths Date.Valid
  dsimp only
  refine ⟨?_, ?_, ?_, ?_⟩
  · omega
  · omega
  · simp only [le_min_iff]
    exact ⟨h3, daysInMonth_pos _ _⟩
  · exact min_le_right _ _

/-! ### Override selection lemmas -/

theorem updLE_refl (a : Option ℤ) : updLE a a = true := by
  cases a <;> simp [updLE]

theorem updLE_total (a b : Option ℤ) : updLE a b = true ∨ updLE b a = true := by
  cases a <;> cases b <;> simp [updLE] <;> omega

theorem updLE_trans {a b c : Option ℤ} (h1 : updLE a b = true)
    (h2 : updLE b c = true) : updLE a c = true := by
  cases a <;> cases b <;> cases c <;> simp_all [updLE] <;> omega

theorem foldl_latestStep_mem (l : List OverrideRow) :
    ∀ acc r, l.foldl latestStep acc = some r → acc = some r ∨ r ∈ l := by
  induction l with
  | nil => intro acc r h; exact Or.inl h
  | cons x xs ih =>
    intro acc r h
    rcases ih (latestStep acc x) r h with h' | h'
    · cases acc with
      | none =>
        simp only [latestStep] at h'
        exact Or.inr (by simp [← Option.some.injEq r x |>.mp h'.symm])
      | some a =>
        simp only [latestStep] at h'
        split at h'
        · exact Or.inr (by simp [← Option.some.injEq r x |>.mp h'.symm])
        · exact Or.inl h'
    · exact Or.inr (List.mem_cons_of_mem _ h')

theorem foldl_latestStep_max (l : List OverrideRow) :
    ∀ acc r, l.foldl latestStep acc = some r →
      (∀ x ∈ l, updLE x.updated_at r.updated_at = true) ∧
      (∀ a, acc = some a → updLE a.updated_at r.updated_at = true) := by
  induction l with
  | nil =>
    intro acc r h
    refine ⟨by simp, fun a ha => ?_⟩
    rw [ha] at h
    simp only [List.foldl_nil] at h
    injection h with h
    subst h
    exact updLE_refl _
  | cons x xs ih =>
    intro acc r h
    obtain ⟨hall, hacc⟩ := ih (latestStep acc x) r h
    have hx : updLE x.updated_at r.updated_at = true := by
      cases acc with
      | none => exact hacc x rfl
      | some a =>
        simp only [latestStep] at hacc
        by_cases hle : updLE a.updated_at x.updated_at = true
        · exact hacc x (by simp [hle])
        · have ha : updLE a.updated_at r.updated_at = true := by
            apply hacc; simp [hle]
          rcases updLE_total a.updated_at x.updated_at with h' | h'
          · exact absurd h' hle
          · exact updLE_trans h' ha
    refine ⟨fun y hy => ?_, fun a ha => ?_⟩
    · rcases List.mem_cons.mp hy with rfl | hy'
      · exact hx
      · exact hall y hy'
    · subst ha
      simp only [latestStep] at hacc
      by_cases hle : updLE a.updated_at x.updated_at = true
      · exact updLE_trans hle hx
      · apply hacc; simp [hle]

theorem foldl_latestStep_isSome (l : List OverrideRow) :
    ∀ acc, (acc.isSome ∨ l ≠ []) → (l.foldl latestStep acc).isSome := by
  induction l with
  | nil =>
    intro acc h
    rcases h with h | h
    · simpa using h
    · exact absurd rfl h
  | cons x xs ih =>
    intro acc _
    apply ih
    cases acc with
    | none => left; simp [latestStep]
    | some a => left; simp only [latestStep]; split <;> simp

/-- Structural description of the merged override for one id: the row
whose amount `groupby("record_id").last()` keeps (when the id has any
non-null amount at all) is one of the id's non-null-amount rows and is
maximal among them in the `updated_at` sort order; the merge yields no
amount exactly when every override row of the id has a null amount. -/
theorem latestOverrideRow_spec (ovs : List OverrideRow) (rid : String) :
    (∀ r, latestOverrideRow ovs rid = some r →
      r ∈ ovs ∧ r.record_id = rid ∧ r.override_amount ≠ none ∧
        ∀ x ∈ ovs, x.record_id = rid → x.override_amount ≠ none →
          updLE x.updated_at r.updated_at = true) ∧
    (latestOverrideRow ovs rid = none ↔
      ∀ x ∈ ovs, x.record_id = rid → x.override_amount = none) := by
  constructor
  · intro r hr
    have hmem := foldl_latestStep_mem _ _ _ hr
    have hmax := (foldl_latestStep_max _ _ _ hr).1
    rcases hmem with h | h
    · cases h
    · have hf := List.mem_filter.mp h
      have hprops : r.record_id = rid ∧ ¬ r.override_amount = none := by
        simpa using hf.2
      refine ⟨hf.1, hprops.1, hprops.2, fun x hx hxid hxa => ?_⟩
      exact hmax x (List.mem_filter.mpr ⟨hx, by simp [hxid, hxa]⟩)
  · constructor
    · intro h x hx hxid
      by_contra hxa
      have hne : ovs.filter
          (fun r => r.record_id = rid ∧ r.override_amount ≠ none)
          ≠ [] := by
        intro hemp
        have hin : x ∈ ovs.filter
            (fun r => r.record_id = rid ∧ r.override_amount ≠ none) :=
          List.mem_filter.mpr ⟨hx, by simp [hxid, hxa]⟩
        rw [hemp] at hin
        cases hin
      have hsome := foldl_latestStep_isSome
        (ovs.filter
          (fun r => r.record_id = rid ∧ r.override_amount ≠ none))
        none (Or.inr hne)
      unfold latestOverrideRow at h
      rw [h] at hsome
      cases hsome
    · intro h
      have hemp : ovs.filter
          (fun r => r.record_id = rid ∧ r.override_amount ≠ none)
          = [] := by
        rw [List.filter_eq_nil_iff]
        intro x hx
        simp only [decide_eq_true_eq, not_and]
        intro hxid hxa
        exact hxa (h x hx hxid)
      unfold latestOverrideRow
      rw [hemp]
      rfl

/-! ### C1 — final-amount resolution -/

/-- **C1** (amended).  For every project row the resolved `_final_amount`
is always defined: it equals, rounded to 2 decimals, the latest non-null
override amount for the record — the amount of the row maximal in the
`updated_at` sort order among the id's rows carrying a non-null amount
(pandas `last()` skips null entries per column, so a trailing null-amount
row does not mask an earlier amount) — whenever any such override exists,
and otherwise equals the predicted amount
`contract_amount × (win_probability/100) × decay_factor` rounded to 2
decimals; with entirely missing inputs it defaults to 0; and
`final_amount ≥ 0` whenever the parsed contract amount, the rate, the
decay factor and every override amount on file are non-negative (the code
does not clamp a negative override amount or a negative parsed contract
amount, so unconditional non-negativity fails — see the counterexample). -/
theorem c1_final_amount_resolution (ovs : List OverrideRow) (rid : String)
    (amt : ℚ) (rate : Option ℚ) (decay : ℚ) :
    (∀ r, latestOverrideRow ovs rid = some r →
      r ∈ ovs ∧ r.record_id = rid ∧ r.override_amount ≠ none ∧
        ∀ x ∈ ovs, x.record_id = rid → x.override_amount ≠ none →
          updLE x.updated_at r.updated_at = true) ∧
    (∀ r a, latestOverrideRow ovs rid = some r →
      r.override_amount = some a →
      finalAmount ovs rid amt rate decay = round2 a) ∧
    ((∀ x ∈ ovs, x.record_id = rid → x.override_amount = none) →
      finalAmount ovs rid amt rate decay
        = round2 (systemPredAmount amt rate decay)) ∧
    (finalAmount [] rid 0 none decay = 0) ∧
    (0 ≤ amt → 0 ≤ rate.getD 0 → 0 ≤ decay →
      (∀ r ∈ ovs, ∀ a, r.override_amount = some a → 0 ≤ a) →
      0 ≤ finalAmount ovs rid amt rate decay) := by
  refine ⟨(latestOverrideRow_spec ovs rid).1, ?_, ?_, ?_, ?_⟩
  · intro r a hr ha
    unfold finalAmount latestOverrideAmount
    rw [hr]
    simp [ha]
  · intro hall
    have hnone : latestOverrideRow ovs rid = none :=
      (latestOverrideRow_spec ovs rid).2.mpr hall
    unfold finalAmount latestOverrideAmount
    rw [hnone]
    rfl
  · unfold finalAmount latestOverrideAmount latestOverrideRow
      systemPredAmount
    simp only [List.filter_nil, List.foldl_nil, Option.none_bind,
      Option.getD_none]
    have h : (0:ℚ) * (0 / 100) * decay = ((0:ℤ):ℚ) := by
      push_cast; ring
    rw [h, round2_intCast]
    norm_num
  · intro hamt hrate hdecay hov
    have hpred : 0 ≤ systemPredAmount amt rate decay := by
      unfold systemPredAmount
      have h100 : (0:ℚ) ≤ rate.getD 0 / 100 := by positivity
      exact mul_nonneg (mul_nonneg hamt h100) hdecay
    unfold finalAmount latestOverrideAmount
    cases hsel : latestOverrideRow ovs rid with
    | none =>
      apply round2_nonneg
      simpa using hpred
    | some r =>
      have hspec := (latestOverrideRow_spec ovs rid).1 r hsel
      apply round2_nonneg
      cases hoa : r.override_amount with
      | none => exact absurd hoa hspec.2.2.1
      | some a =>
        simpa [hoa] using hov r hspec.1 a hoa

/-- **C1** counterexample.  The claim's unconditional `final_amount ≥ 0`
fails on the code in both branches: a latest override amount of −10 is
passed through verbatim, and a parsed contract amount of −5 (the amount
parser keeps a leading minus sign) with win probability 50 predicts −2.5. -/
theorem c1_final_amount_nonneg_counterexample :
    finalAmount [⟨"rec1", some (-10), some 0⟩] "rec1" 0 none 1 = -10 ∧
    finalAmount [] "rec2" (-5) (some 50) 1 = -(5/2) ∧
    finalAmount [⟨"rec1", some (-10), some 0⟩] "rec1" 0 none 1 < 0 := by
  have hsel : latestOverrideRow [⟨"rec1", some (-10), some 0⟩] "rec1"
      = some ⟨"rec1", some (-10), some 0⟩ := by decide
  have h1 : finalAmount [⟨"rec1", some (-10), some 0⟩] "rec1" 0 none 1
      = -10 := by
    unfold finalAmount latestOverrideAmount
    rw [hsel]
    show round2 (-10) = -10
    have h : (-10 : ℚ) = ((-1000 : ℤ) : ℚ) / 100 := by norm_num
    rw [h, round2_div100]
  have h2 : finalAmount [] "rec2" (-5) (some 50) 1 = -(5/2) := by
    unfold finalAmount latestOverrideAmount latestOverrideRow
    simp only [List.filter_nil, List.foldl_nil, Option.none_bind,
      Option.getD_none]
    have h : systemPredAmount (-5) (some 50) 1 = ((-250 : ℤ) : ℚ) / 100 := by
      unfold systemPredAmount
      norm_num
    rw [h, round2_div100]
    norm_num
  exact ⟨h1, h2, by rw [h1]; norm_num⟩

/-- **C1** witness.  First, the spec §8 override-precedence scenario: two
overrides for `rec1`, the later one carrying 60; with contract 100, rate
50 and decay 0.9 the resolved final amount is the override 60, not the
predicted 45.  Second, the column-wise `last()` semantics: a LATER
override row whose amount is null does not mask the earlier non-null
amount 5 — the merge still resolves 5, not the prediction. -/
theorem c1_final_amount_resolution_witness :
    finalAmount [⟨"rec1", some 45, some 3⟩, ⟨"rec1", some 60, some 5⟩]
      "rec1" 100 (some 50) (9/10) = 60 ∧
    finalAmount [⟨"rec1", some 5, some 1⟩, ⟨"rec1", none, some 2⟩]
      "rec1" 100 (some 50) 1 = 5 := by
  constructor
  · have h := (c1_final_amount_resolution
        [⟨"rec1", some 45, some 3⟩, ⟨"rec1", some 60, some 5⟩]
        "rec1" 100 (some 50) (9/10)).2.1
        ⟨"rec1", some 60, some 5⟩ 60 (by decide) rfl
    rw [h]
    have h60 : (60 : ℚ) = ((6000 : ℤ) : ℚ) / 100 := by norm_num
    rw [h60, round2_div100]
  · have h := (c1_final_amount_resolution
        [⟨"rec1", some 5, some 1⟩, ⟨"rec1", none, some 2⟩]
        "rec1" 100 (some 50) 1).2.1
        ⟨"rec1", some 5, some 1⟩ 5 (by decide) rfl
    rw [h]
    have h5 : (5 : ℚ) = ((500 : ℤ) : ℚ) / 100 := by norm_num
    rw [h5, round2_div100]

/-! ### C4 — time-decay factor -/

/-- **C4** (amended).  The decay factor of row `i` is
`Real.exp (decayExponents lam base rows)[i]` where the exponent is
`-λ · max 0 (days(col_i − reference))/30` for the single date column the
code selects for the whole frame — the first of expected-completion,
delivery, start with at least one non-null value — rows whose entry in the
chosen column is null getting exponent 0 (factor exactly 1.0); the factor
is exactly 1.0 for every row when `λ ≤ 0` or when no column qualifies; and
every factor lies in `(0, 1]`.  (The claim's per-row fallback order fails
on the code, which falls back per column, not per row — see the
counterexample.) -/
theorem c4_decay_factor (lam : ℚ) (base : ℤ) (rows : List DecayRow) :
    ((rows.map DecayRow.expectedEnd).any Option.isSome = true →
      chosenDates rows = some (rows.map DecayRow.expectedEnd)) ∧
    (lam ≤ 0 → decayExponents lam base rows = rows.map fun _ => 0) ∧
    (chosenDates rows = none →
      decayExponents lam base rows = rows.map fun _ => 0) ∧
    (¬ lam ≤ 0 → ∀ ds, chosenDates rows = some ds →
      decayExponents lam base rows = ds.map (cellExponent lam base)) ∧
    (∀ e ∈ decayExponents lam base rows,
      e ≤ 0 ∧ 0 < Real.exp (e : ℝ) ∧ Real.exp (e : ℝ) ≤ 1) ∧
    (lam ≤ 0 → ∀ e ∈ decayExponents lam base rows, Real.exp (e : ℝ) = 1) := by
  have hmem : ∀ e ∈ decayExponents lam base rows, e ≤ 0 := by
    intro e he
    unfold decayExponents at he
    split at he
    · obtain ⟨r, _, rfl⟩ := List.mem_map.mp he
      exact le_rfl
    · rename_i hlam
      split at he
      · obtain ⟨r, _, rfl⟩ := List.mem_map.mp he
        exact le_rfl
      · obtain ⟨dq, _, rfl⟩ := List.mem_map.mp he
        cases dq with
        | none => simp [cellExponent]
        | some d =>
          unfold cellExponent
          have hlam' : 0 < lam := lt_of_not_le hlam
          have hmax : (0:ℚ) ≤ max 0 ((d - base : ℤ) : ℚ) / 30 := by
            positivity
          have := mul_nonneg hlam'.le hmax
          linarith
  refine ⟨?_, ?_, ?_, ?_, ?_, ?_⟩
  · intro h
    unfold chosenDates
    rw [h]
    simp
  · intro h
    unfold decayExponents
    simp [h]
  · intro h
    unfold decayExponents
    split
    · rfl
    · rw [h]
  · intro hlam ds hds
    unfold decayExponents
    rw [if_neg hlam, hds]
  · intro e he
    have h0 := hmem e he
    have h0' : ((e : ℝ)) ≤ 0 := by exact_mod_cast h0
    exact ⟨h0, Real.exp_pos _, Real.exp_le_one_iff.mpr h0'⟩
  · intro hlam e he
    unfold decayExponents at he
    rw [if_pos hlam] at he
    obtain ⟨r, _, rfl⟩ := List.mem_map.mp he
    simp [Real.exp_zero]

/-- **C4** counterexample.  The claim's per-row milestone selection fails:
in a frame whose first row has an expected-completion date, the code uses
the expected-completion column for EVERY row, so a second row with only a
delivery date gets delta 0 (factor `exp 0 = 1`) instead of the claimed
`exp(-λ·3)` from its delivery date (here λ = 1/100, reference day 10,
delivery day 100, i.e. 90 days = 3 delta-months ahead). -/
theorem c4_decay_factor_counterexample :
    decayExponents (1/100) 10
        [⟨some 100, none, none⟩, ⟨none, some 100, none⟩]
      = [-(3/100), 0] ∧
    specRowDecayExponent (1/100) 10 ⟨none, some 100, none⟩ = -(3/100) ∧
    decayExponents (1/100) 10
        [⟨some 100, none, none⟩, ⟨none, some 100, none⟩]
      ≠ ([⟨some 100, none, none⟩, ⟨none, some 100, none⟩].map
          (specRowDecayExponent (1/100) 10)) ∧
    Real.exp
        (((decayExponents (1/100) 10
            [⟨some 100, none, none⟩, ⟨none, some 100, none⟩]).getD 1 0 : ℚ)
          : ℝ)
      ≠ Real.exp
          ((specRowDecayExponent (1/100) 10 ⟨none, some 100, none⟩ : ℚ)
            : ℝ) := by
  have hcell : cellExponent (1/100) 10 (some 100) = -(3/100) := by
    show -(1/100) * (max 0 (((100 - 10 : ℤ)) : ℚ) / 30) = -(3/100)
    have hmax : max (0:ℚ) (((100 - 10 : ℤ)) : ℚ) = 90 := by
      rw [max_eq_right] <;> norm_num
    rw [hmax]
    norm_num
  have h1 : decayExponents (1/100) 10
      [⟨some 100, none, none⟩, ⟨none, some 100, none⟩] = [-(3/100), 0] := by
    unfold decayExponents
    rw [if_neg (by norm_num : ¬ (1/100 : ℚ) ≤ 0)]
    show ([some 100, none] : List (Option ℤ)).map (cellExponent (1/100) 10)
      = [-(3/100), 0]
    simp only [List.map_cons, List.map_nil, hcell]
    rfl
  have h2 : specRowDecayExponent (1/100) 10 ⟨none, some 100, none⟩
      = -(3/100) := by
    unfold specRowDecayExponent
    rw [if_neg (by norm_num : ¬ (1/100 : ℚ) ≤ 0)]
    exact hcell
  refine ⟨h1, h2, ?_, ?_⟩
  · rw [h1]
    have hrow1 : specRowDecayExponent (1/100) 10 ⟨some 100, none, none⟩
        = -(3/100) := by
      unfold specRowDecayExponent
      rw [if_neg (by norm_num : ¬ (1/100 : ℚ) ≤ 0)]
      exact hcell
    simp only [List.map_cons, List.map_nil, hrow1, h2]
    intro hcontra
    have := List.cons.injEq (-(3/100) : ℚ) [0] (-(3/100)) [-(3/100)]
    rw [this] at hcontra
    have h0 : (0:ℚ) = -(3/100) := by
      have := hcontra.2
      simpa using this
    norm_num at h0
  · rw [h1, h2]
    show Real.exp ((0 : ℚ) : ℝ) ≠ Real.exp ((-(3/100) : ℚ) : ℝ)
    rw [ne_eq, Real.exp_eq_exp]
    intro h
    have : (0 : ℚ) = -(3/100) := by exact_mod_cast h
    norm_num at this

/-- **C4** witness: with `λ = 0` the factor series is identically
`exp 0 = 1`. -/
theorem c4_decay_factor_witness :
    decayExponents 0 5 [⟨some 100, none, none⟩] = [0] := by
  have h := (c4_decay_factor 0 5 [⟨some 100, none, none⟩]).2.1 (le_refl 0)
  rw [h]
  rfl

/-! ### C10 — per-stage payment-date fallback -/

/-- **C10**.  When the explicit per-stage date fields are missing, the
four-stage expansion derives the payment dates by the fixed fallback
table: down payment ← start date, second payment ← delivery date, final
payment and retention ← delivery date + 1 calendar month; the latter two
stay null when the delivery date is missing too, and an explicit stage
date always wins over the fallback. -/
theorem c10_payment_date_fallback (p : ProjectRow)
    (h1 : p.downDate = none) (h2 : p.secondDate = none)
    (h3 : p.finalDate = none) (h4 : p.retentionDate = none) :
    ((stagePlan p).map (fun s => s.2.2)
      = [p.startDate, p.deliveryDate,
         p.deliveryDate.map (fun t => addMonths t 1),
         p.deliveryDate.map (fun t => addMonths t 1)]) ∧
    (p.deliveryDate = none →
      (stagePlan p).map (fun s => s.2.2)
        = [p.startDate, none, none, none]) ∧
    (∀ e s d fb, resolvePaymentDate (some e) s d fb = some e) := by
  refine ⟨?_, ?_, ?_⟩
  · simp [stagePlan, resolvePaymentDate, h1, h2, h3, h4]
  · intro hdel
    simp [stagePlan, resolvePaymentDate, h1, h2, h3, h4, hdel]
  · intro e s d fb
    rfl

/-- **C10** witness: a row with no explicit stage dates, start 2024-01-15
and delivery 2024-03-31; final payment and retention land on 2024-04-30
(delivery + 1 month, day clamped). -/
theorem c10_payment_date_fallback_witness :
    (stagePlan
        { customer := "甲", businessLine := "A", revenue := 100,
          downRatio := 30, secondRatio := 40, finalRatio := 20,
          retentionRatio := 10, downDate := none, secondDate := none,
          finalDate := none, retentionDate := none,
          startDate := some ⟨2024, 1, 15⟩,
          deliveryDate := some ⟨2024, 3, 31⟩ }).map (fun s => s.2.2)
      = [some ⟨2024, 1, 15⟩, some ⟨2024, 3, 31⟩,
         some ⟨2024, 4, 30⟩, some ⟨2024, 4, 30⟩] := by
  have h := (c10_payment_date_fallback
      { customer := "甲", businessLine := "A", revenue := 100,
        downRatio := 30, secondRatio := 40, finalRatio := 20,
        retentionRatio := 10, downDate := none, secondDate := none,
        finalDate := none, retentionDate := none,
        startDate := some ⟨2024, 1, 15⟩,
        deliveryDate := some ⟨2024, 3, 31⟩ } rfl rfl rfl rfl).1
  rw [h]
  decide

/-! ### C2 — amount conservation -/

theorem entryAmountSum_cons (e : CashFlowEntry) (es : List CashFlowEntry) :
    entryAmountSum (e :: es) = e.amount + entryAmountSum es := by
  unfold entryAmountSum
  simp

theorem entryAmountSum_filterMap {α : Type} (f : α → Option CashFlowEntry)
    (l : List α) :
    entryAmountSum (l.filterMap f)
      = (l.map (fun a => ((f a).map CashFlowEntry.amount).getD 0)).sum := by
  induction l with
  | nil => rfl
  | cons x xs ih =>
    cases hfx : f x with
    | none =>
      simp only [List.filterMap_cons, hfx, List.map_cons, List.sum_cons, ih]
      simp
    | some e =>
      simp only [List.filterMap_cons, hfx, List.map_cons, List.sum_cons,
        entryAmountSum_cons, ih]
      simp

/-- Contribution of one stage to the project's total: under the
hypotheses (non-negative ratio, resolvable date for a positive ratio,
positive revenue) every stage contributes exactly `revenue × ratio/100`,
a zero-ratio stage contributing 0. -/
theorem emitStage_amount (p : ProjectRow) (n : String) (r : ℚ)
    (dq : Option Date) (hr : 0 ≤ r) (hd : 0 < r → dq ≠ none)
    (hrev : 0 < p.revenue) :
    ((emitStage p (n, r, dq)).map CashFlowEntry.amount).getD 0
      = p.revenue * (r / 100) := by
  cases dq with
  | none =>
    have hnpos : ¬ 0 < r := fun h => (hd h) rfl
    have hr0 : r = 0 := le_antisymm (not_lt.mp hnpos) hr
    simp [emitStage, hr0]
  | some d =>
    unfold emitStage
    dsimp only
    by_cases hpos : 0 < r
    · have hamt : 0 < p.revenue * (r / 100) := by positivity
      rw [if_pos ⟨hpos, hamt⟩]
      rfl
    · have hr0 : r = 0 := le_antisymm (not_lt.mp hpos) hr
      rw [if_neg (fun h => hpos h.1)]
      simp [hr0]

/-- Splitting an amount sum along a Boolean filter. -/
theorem entryAmountSum_filter_split (es : List CashFlowEntry)
    (q : CashFlowEntry → Bool) :
    entryAmountSum (es.filter q)
        + entryAmountSum (es.filter (fun e => !(q e)))
      = entryAmountSum es := by
  induction es with
  | nil => simp [entryAmountSum]
  | cons x xs ih =>
    cases hx : q x with
    | true =>
      simp only [List.filter_cons, hx, Bool.not_true, if_true,
        entryAmountSum_cons]
      simp only [Bool.false_eq_true, if_false]
      linarith [ih]
    | false =>
      simp only [List.filter_cons, hx, Bool.not_false, Bool.false_eq_true,
        if_false, if_true, entryAmountSum_cons]
      linarith [ih]

/-- Removing another month's rows does not change a month's group total. -/
theorem monthGroupTotal_filter_ne (es : List CashFlowEntry) (k k2 : ℤ)
    (hne : k2 ≠ k) :
    monthGroupTotal (es.filter (fun e => !(decide (e.month = k)))) k2
      = monthGroupTotal es k2 := by
  unfold monthGroupTotal
  congr 1
  induction es with
  | nil => rfl
  | cons x xs ih =>
    by_cases hx : x.month = k
    · have hx2 : ¬ (x.month = k2) := by
        intro h
        exact hne (by rw [← h, hx])
      simp [List.filter_cons, hx, hx2, Ne.symm hne, ih]
    · by_cases hx2 : x.month = k2
      · simp [List.filter_cons, hx, hx2, hne, ih]
      · simp [List.filter_cons, hx, hx2, ih]

/-- The group totals over any duplicate-free key cover add up to the whole
amount sum. -/
theorem sum_monthGroupTotal_keys :
    ∀ (ks : List ℤ), ks.Nodup → ∀ (es : List CashFlowEntry),
      (∀ e ∈ es, e.month ∈ ks) →
      (ks.map (monthGroupTotal es)).sum = entryAmountSum es := by
  intro ks
  induction ks with
  | nil =>
    intro _ es hmem
    have hnil : es = [] := by
      cases es with
      | nil => rfl
      | cons x xs => exact absurd (hmem x (by simp)) (by simp)
    subst hnil
    rfl
  | cons k ks ih =>
    intro hnd es hmem
    simp only [List.map_cons, List.sum_cons]
    have hks : ∀ k2 ∈ ks, monthGroupTotal es k2
        = monthGroupTotal (es.filter (fun e => !(decide (e.month = k)))) k2 := by
      intro k2 hk2
      have hne : k2 ≠ k := by
        intro h
        subst h
        exact (List.nodup_cons.mp hnd).1 hk2
      exact (monthGroupTotal_filter_ne es k k2 hne).symm
    rw [List.map_congr_left hks]
    rw [ih (List.nodup_cons.mp hnd).2 _ ?memb]
    case memb =>
      intro e he
      have hee := List.mem_filter.mp he
      rcases List.mem_cons.mp (hmem e hee.1) with h | h
      · exfalso
        have := hee.2
        simp [h] at this
      · exact h
    have hsplit := entryAmountSum_filter_split es
      (fun e => decide (e.month = k))
    unfold monthGroupTotal
    linarith [hsplit]

/-- The sorted distinct month keys still cover the whole amount sum. -/
theorem monthKeys_sum (es : List CashFlowEntry) :
    ((monthKeys es).map (monthGroupTotal es)).sum = entryAmountSum es := by
  unfold monthKeys
  have hperm :
      ((es.map CashFlowEntry.month).dedup.mergeSort (fun a b => a ≤ b)).Perm
        (es.map CashFlowEntry.month).dedup :=
    List.mergeSort_perm _ _
  rw [(hperm.map (monthGroupTotal es)).sum_eq]
  apply sum_monthGroupTotal_keys
  · exact List.nodup_dedup _
  · intro e he
    exact List.mem_dedup.mpr (List.mem_map_of_mem _ he)

/-- **C2** (amended).  For every project whose stage ratios (all
non-negative) sum to 100, whose revenue is positive, and whose every
positive-ratio stage resolves to a payment date, the emitted entries sum
exactly to the revenue base (`final_amount`); and for every entry list,
the monthly table's totals sum to the total of all entries.  (The claim's
"unscheduled" bucket does not exist in the code: a stage whose date cannot
be resolved is dropped entirely — never emitted, never reported — so
without the date hypothesis conservation fails; see the counterexample.) -/
theorem c2_cash_flow_conservation :
    (∀ p : ProjectRow,
      0 ≤ p.downRatio → 0 ≤ p.secondRatio → 0 ≤ p.finalRatio →
      0 ≤ p.retentionRatio → 0 < p.revenue →
      (∀ s ∈ stagePlan p, 0 < s.2.1 → s.2.2 ≠ none) →
      ratioSum p = 100 →
      entryAmountSum (calculate_single_project_cash_flow p) = p.revenue) ∧
    (∀ es : List CashFlowEntry,
      ((calculate_monthly_summary es).map (fun r => r.2.1)).sum
        = entryAmountSum es) := by
  constructor
  · intro p ha hb hc hd hrev hdates hsum
    unfold calculate_single_project_cash_flow
    rw [entryAmountSum_filterMap]
    unfold stagePlan
    simp only [List.map_cons, List.map_nil, List.sum_cons, List.sum_nil]
    rw [emitStage_amount p "首付款" p.downRatio
        (resolvePaymentDate p.downDate p.startDate p.deliveryDate .start) ha
        (fun h => hdates ("首付款", p.downRatio,
          resolvePaymentDate p.downDate p.startDate p.deliveryDate .start)
          (by simp [stagePlan]) h) hrev,
      emitStage_amount p "次付款" p.secondRatio
        (resolvePaymentDate p.secondDate p.startDate p.deliveryDate
          .delivery) hb
        (fun h => hdates ("次付款", p.secondRatio,
          resolvePaymentDate p.secondDate p.startDate p.deliveryDate
            .delivery) (by simp [stagePlan]) h) hrev,
      emitStage_amount p "尾款" p.finalRatio
        (resolvePaymentDate p.finalDate p.startDate p.deliveryDate
          .deliveryPlusOne) hc
        (fun h => hdates ("尾款", p.finalRatio,
          resolvePaymentDate p.finalDate p.startDate p.deliveryDate
            .deliveryPlusOne) (by simp [stagePlan]) h) hrev,
      emitStage_amount p "质保金" p.retentionRatio
        (resolvePaymentDate p.retentionDate p.startDate p.deliveryDate
          .deliveryPlusOne) hd
        (fun h => hdates ("质保金", p.retentionRatio,
          resolvePaymentDate p.retentionDate p.startDate p.deliveryDate
            .deliveryPlusOne) (by simp [stagePlan]) h) hrev]
    unfold ratioSum at hsum
    linear_combination (p.revenue / 100) * hsum
  · intro es
    unfold calculate_monthly_summary
    rw [List.map_map]
    have hcomp : ((fun r : ℤ × ℚ × ℕ => r.2.1) ∘
        (fun k => (k, monthGroupTotal es k,
          ((es.filter (fun e => e.month = k)).map
            CashFlowEntry.projectName).dedup.length)))
        = monthGroupTotal es := rfl
    rw [hcomp, monthKeys_sum]

/-- **C2** counterexample.  A project with ratios 50/0/50/0 summing to
100, positive revenue 100, a start date but NO delivery date: the final
payment (尾款, ratio 50) has no resolvable date, the code silently drops
it (it is not reported as "unscheduled" anywhere), and the emitted
entries sum to 50 ≠ 100 = final_amount. -/
theorem c2_cash_flow_conservation_counterexample :
    ratioSum
      ({ customer := "乙", businessLine := "B", revenue := 100,
         downRatio := 50, secondRatio := 0, finalRatio := 50,
         retentionRatio := 0, downDate := none, secondDate := none,
         finalDate := none, retentionDate := none,
         startDate := some ⟨2024, 1, 10⟩, deliveryDate := none }) = 100 ∧
    entryAmountSum (calculate_single_project_cash_flow
      { customer := "乙", businessLine := "B", revenue := 100,
        downRatio := 50, secondRatio := 0, finalRatio := 50,
        retentionRatio := 0, downDate := none, secondDate := none,
        finalDate := none, retentionDate := none,
        startDate := some ⟨2024, 1, 10⟩, deliveryDate := none }) = 50 ∧
    (50 : ℚ) ≠ 100 := by
  refine ⟨by norm_num [ratioSum], ?_, by norm_num⟩
  unfold calculate_single_project_cash_flow stagePlan resolvePaymentDate
  simp only [List.filterMap]
  unfold emitStage
  norm_num
  simp [entryAmountSum]

/-- **C2** witness: a fully dated 30/40/20/10 project conserves its
revenue 100 exactly. -/
theorem c2_cash_flow_conservation_witness :
    entryAmountSum (calculate_single_project_cash_flow
      { customer := "甲", businessLine := "A", revenue := 100,
        downRatio := 30, secondRatio := 40, finalRatio := 20,
        retentionRatio := 10, downDate := none, secondDate := none,
        finalDate := none, retentionDate := none,
        startDate := some ⟨2024, 1, 15⟩,
        deliveryDate := some ⟨2024, 3, 31⟩ }) = 100 := by
  apply (c2_cash_flow_conservation).1 _ (by norm_num) (by norm_num)
    (by norm_num) (by norm_num) (by norm_num) ?_ (by norm_num [ratioSum])
  intro s hs _
  fin_cases hs <;> simp [resolvePaymentDate]

/-! ### C5 — forecast shape -/

theorem cumRows_length (acc : ℚ) (rows : List (ℤ × ℚ)) :
    (cumRows acc rows).length = rows.length := by
  induction rows generalizing acc with
  | nil => rfl
  | cons r rest ih =>
    cases r
    simp [cumRows, ih]

theorem cumRows_fst (acc : ℚ) (rows : List (ℤ × ℚ)) :
    (cumRows acc rows).map (fun r => r.1) = rows.map Prod.fst := by
  induction rows generalizing acc with
  | nil => rfl
  | cons r rest ih =>
    cases r
    simp [cumRows, ih]

theorem cumRows_amount (acc : ℚ) (rows : List (ℤ × ℚ)) :
    (cumRows acc rows).map (fun r => r.2.1) = rows.map Prod.snd := by
  induction rows generalizing acc with
  | nil => rfl
  | cons r rest ih =>
    cases r
    simp [cumRows, ih]

/-- The cumulative column of the forecast is exactly the running-sum
recursion (`cum[0] = acc + a[0]`, `cum[i] = cum[i-1] + a[i]`), shared with
the runway balance column. -/
theorem cumRows_cum (acc : ℚ) (rows : List (ℤ × ℚ)) :
    (cumRows acc rows).map (fun r => r.2.2)
      = balancesFrom acc (rows.map Prod.snd) := by
  induction rows generalizing acc with
  | nil => rfl
  | cons r rest ih =>
    cases r
    simp [cumRows, balancesFrom, ih]

/-- **C5** (amended).  For every NON-EMPTY input and every months_ahead,
the forecast with `fill_zero_months=True` returns exactly `months_ahead`
rows: consecutive months starting at the current month in strictly
ascending order with no duplicates, amounts equal to the monthly group
totals (0 for months with no entries), and a running cumulative-sum
column; for an input with zero cash-flow rows the code instead returns an
empty table immediately, whatever `months_ahead` says (the claim's
"including an input with zero cash-flow rows" fails — see the
counterexample). -/
theorem c5_forecast_shape :
    (∀ (currentMonth : ℤ) (monthsAhead : ℕ) (fill : Bool),
      forecast_cash_flow [] currentMonth monthsAhead fill = []) ∧
    (∀ (es : List CashFlowEntry) (currentMonth : ℤ) (monthsAhead : ℕ),
      es ≠ [] →
      (forecast_cash_flow es currentMonth monthsAhead true).length
          = monthsAhead ∧
      ((forecast_cash_flow es currentMonth monthsAhead true).map
          (fun r => r.1))
        = (List.range monthsAhead).map (fun (i : ℕ) => currentMonth + (i : ℤ)) ∧
      ((forecast_cash_flow es currentMonth monthsAhead true).map
          (fun r => r.1)).Pairwise (· < ·) ∧
      ((forecast_cash_flow es currentMonth monthsAhead true).map
          (fun r => r.2.1))
        = (List.range monthsAhead).map
            (fun (i : ℕ) => monthGroupTotal es (currentMonth + (i : ℤ))) ∧
      ((forecast_cash_flow es currentMonth monthsAhead true).map
          (fun r => r.2.2))
        = balancesFrom 0
            ((forecast_cash_flow es currentMonth monthsAhead true).map
              (fun r => r.2.1))) := by
  constructor
  · intro M n fill
    rfl
  · intro es M n hne
    have hemp : es.isEmpty = false := by
      cases es with
      | nil => exact absurd rfl hne
      | cons a l => rfl
    have hforecast : forecast_cash_flow es M n true
        = cumRows 0 (forecastRows es M n) := by
      unfold forecast_cash_flow
      rw [hemp]
      rfl
    have hfst : (forecastRows es M n).map Prod.fst
        = (List.range n).map (fun (i : ℕ) => M + (i : ℤ)) := by
      unfold forecastRows
      rw [List.map_map]
      rfl
    have hsnd : (forecastRows es M n).map Prod.snd
        = (List.range n).map
            (fun (i : ℕ) => monthGroupTotal es (M + (i : ℤ))) := by
      unfold forecastRows
      rw [List.map_map]
      rfl
    refine ⟨?_, ?_, ?_, ?_, ?_⟩
    · rw [hforecast, cumRows_length]
      unfold forecastRows
      simp
    · rw [hforecast, cumRows_fst, hfst]
    · rw [hforecast, cumRows_fst, hfst]
      have hr : (List.range n).Pairwise (· < ·) := List.pairwise_lt_range n
      exact hr.map _ (fun a b hab => by omega)
    · rw [hforecast, cumRows_amount, hsnd]
    · rw [hforecast, cumRows_amount, cumRows_cum]

/-- **C5** counterexample.  With zero cash-flow rows and
`months_ahead = 12`, the code returns the empty table (0 rows), not 12
rows: the claim's "including an input with zero cash-flow rows" fails. -/
theorem c5_forecast_shape_counterexample :
    forecast_cash_flow [] 0 12 true = [] ∧
    (forecast_cash_flow [] 0 12 true).length ≠ 12 := by
  refine ⟨rfl, ?_⟩
  show ([] : List (ℤ × ℚ × ℚ)).length ≠ 12
  simp

/-- **C5** witness: one entry in month 7, forecast over 3 months from
month 6 has exactly 3 rows. -/
theorem c5_forecast_shape_witness :
    (forecast_cash_flow
      [{ projectName := "甲", businessLine := "A", stageType := "首付款",
         amount := 50, payDate := ⟨2024, 8, 1⟩, month := 7 }]
      6 3 true).length = 3 :=
  ((c5_forecast_shape).2
    [{ projectName := "甲", businessLine := "A", stageType := "首付款",
       amount := 50, payDate := ⟨2024, 8, 1⟩, month := 7 }]
    6 3 (by simp)).1

/-! ### C3 — runway -/

theorem balancesFrom_length (initial : ℚ) (ns : List ℚ) :
    (balancesFrom initial ns).length = ns.length := by
  induction ns generalizing initial with
  | nil => rfl
  | cons n rest ih => simp [balancesFrom, ih]

theorem balancesFrom_getD_zero (initial : ℚ) (ns : List ℚ)
    (h : 0 < ns.length) :
    (balancesFrom initial ns).getD 0 0 = initial + ns.getD 0 0 := by
  cases ns with
  | nil => simp at h
  | cons n rest => rfl

theorem balancesFrom_getD_succ (initial : ℚ) (ns : List ℚ) (i : ℕ)
    (h : i + 1 < ns.length) :
    (balancesFrom initial ns).getD (i + 1) 0
      = (balancesFrom initial ns).getD i 0 + ns.getD (i + 1) 0 := by
  induction i generalizing initial ns with
  | zero =>
    cases ns with
    | nil => simp at h
    | cons n rest =>
      cases rest with
      | nil => simp at h
      | cons m rest2 => simp [balancesFrom]
  | succ j ih =>
    cases ns with
    | nil => simp at h
    | cons n rest =>
      have hlen : j + 1 < rest.length := by
        simp only [List.length_cons] at h
        omega
      show (balancesFrom (initial + n) rest).getD (j + 1) 0 = _
      rw [ih (initial + n) rest hlen]
      rfl

theorem takeWhile_pos_le_length (l : List ℚ) :
    (l.takeWhile (fun b => decide (0 < b))).length ≤ l.length := by
  induction l with
  | nil => simp
  | cons x xs ih =>
    by_cases hx : 0 < x
    · rw [@List.takeWhile_cons_of_pos ℚ (fun b => decide (0 < b)) x xs (decide_eq_true hx)]
      simp only [List.length_cons]
      omega
    · rw [@List.takeWhile_cons_of_neg ℚ (fun b => decide (0 < b)) x xs (by simpa using hx)]
      simp

theorem takeWhile_pos_getD (l : List ℚ) (i : ℕ)
    (h : i < (l.takeWhile (fun b => decide (0 < b))).length) :
    0 < l.getD i 0 := by
  induction l generalizing i with
  | nil => simp at h
  | cons x xs ih =>
    by_cases hx : 0 < x
    · rw [@List.takeWhile_cons_of_pos ℚ (fun b => decide (0 < b)) x xs (decide_eq_true hx)] at h
      simp only [List.length_cons] at h
      cases i with
      | zero => simpa using hx
      | succ j =>
        have hj : j < (xs.takeWhile (fun b => decide (0 < b))).length := by
          omega
        simpa using ih j hj
    · rw [@List.takeWhile_cons_of_neg ℚ (fun b => decide (0 < b)) x xs (by simpa using hx)] at h
      simp at h

theorem takeWhile_pos_stop (l : List ℚ)
    (h : (l.takeWhile (fun b => decide (0 < b))).length < l.length) :
    l.getD ((l.takeWhile (fun b => decide (0 < b))).length) 0 ≤ 0 := by
  induction l with
  | nil => simp at h
  | cons x xs ih =>
    by_cases hx : 0 < x
    · rw [@List.takeWhile_cons_of_pos ℚ (fun b => decide (0 < b)) x xs (decide_eq_true hx)] at h ⊢
      simp only [List.length_cons] at h ⊢
      have hr := ih (by omega)
      simpa using hr
    · rw [@List.takeWhile_cons_of_neg ℚ (fun b => decide (0 < b)) x xs (by simpa using hx)]
      simp only [List.length_nil, List.getD_cons_zero]
      linarith [not_lt.mp hx]

theorem takeWhile_pos_all (l : List ℚ) (h : ∀ b ∈ l, 0 < b) :
    l.takeWhile (fun b => decide (0 < b)) = l := by
  induction l with
  | nil => rfl
  | cons x xs ih =>
    rw [@List.takeWhile_cons_of_pos ℚ (fun b => decide (0 < b)) x xs (decide_eq_true (h x (by simp)))]
    rw [ih (fun b hb => h b (by simp [hb]))]

theorem runwayRows_length (ft : List (ℤ × ℚ × ℚ)) (e i : ℚ) :
    (runwayRows ft e i).length = ft.length := by
  unfold runwayRows
  rw [List.length_map, List.length_zip, balancesFrom_length, List.length_map]
  exact min_self _

theorem runwayRows_balances (ft : List (ℤ × ℚ × ℚ)) (e i : ℚ) :
    (runwayRows ft e i).map RunwayRow.balance
      = balancesFrom i (ft.map (fun r => r.2.1 - e)) := by
  unfold runwayRows
  rw [List.map_map]
  have hcomp : (RunwayRow.balance ∘ fun rb : (ℤ × ℚ × ℚ) × ℚ =>
      ({ month := rb.1.1, income := rb.1.2.1, expense := e,
         netFlow := rb.1.2.1 - e, balance := rb.2 } : RunwayRow))
      = Prod.snd := rfl
  rw [hcomp]
  apply List.map_snd_zip
  rw [balancesFrom_length, List.length_map]

theorem runwayRows_netFlows (ft : List (ℤ × ℚ × ℚ)) (e i : ℚ) :
    (runwayRows ft e i).map RunwayRow.netFlow
      = ft.map (fun r => r.2.1 - e) := by
  unfold runwayRows
  rw [List.map_map]
  have hcomp : (RunwayRow.netFlow ∘ fun rb : (ℤ × ℚ × ℚ) × ℚ =>
      ({ month := rb.1.1, income := rb.1.2.1, expense := e,
         netFlow := rb.1.2.1 - e, balance := rb.2 } : RunwayRow))
      = (fun r : ℤ × ℚ × ℚ => r.2.1 - e) ∘ Prod.fst := rfl
  rw [hcomp, ← List.map_map]
  rw [List.map_fst_zip]
  rw [balancesFrom_length, List.length_map]

theorem runwayRows_fields (ft : List (ℤ × ℚ × ℚ)) (e i : ℚ) :
    ∀ r ∈ runwayRows ft e i, r.netFlow = r.income - e ∧ r.expense = e := by
  intro r hr
  unfold runwayRows at hr
  obtain ⟨rb, _, rfl⟩ := List.mem_map.mp hr
  exact ⟨rfl, rfl⟩

theorem forecastRows_length (es : List CashFlowEntry) (M : ℤ) (n : ℕ) :
    (forecastRows es M n).length = n := by
  unfold forecastRows
  simp

theorem forecast_fill_eq (es : List CashFlowEntry) (M : ℤ) (n : ℕ)
    (hemp : es.isEmpty = false) :
    forecast_cash_flow es M n true = cumRows 0 (forecastRows es M n) := by
  unfold forecast_cash_flow
  rw [hemp]
  rfl

/-- **C3**.  With non-empty cash-flow data the runway table satisfies the
claimed recurrences: every row's net flow is its income minus the constant
monthly cost, the balance column is the running balance
(`balance[0] = initial + net[0]`, `balance[i] = balance[i-1] + net[i]`,
spelled out by the `balancesFrom` conjuncts), `runway_months` counts the
consecutive leading months with positive balance, stops at the first
balance ≤ 0, and equals `months_ahead` when the balance stays positive
throughout; with no cash-flow data the result is runway 0, min balance =
initial cash and an empty monthly table, returned as a normal result. -/
theorem c3_runway (initial expense : ℚ) (monthsAhead : ℕ)
    (currentMonth : ℤ) :
    (∀ (i2 e2 : ℚ) (n2 : ℕ) (M2 : ℤ),
      calculate_runway [] i2 e2 n2 M2
        = { runway_months := 0, min_cash_balance := i2,
            monthly_summary := [] }) ∧
    (∀ es : List CashFlowEntry, es ≠ [] → 0 < monthsAhead →
      (calculate_runway es initial expense monthsAhead
          currentMonth).monthly_summary.length = monthsAhead ∧
      (∀ r ∈ (calculate_runway es initial expense monthsAhead
          currentMonth).monthly_summary,
        r.netFlow = r.income - expense ∧ r.expense = expense) ∧
      ((calculate_runway es initial expense monthsAhead
          currentMonth).monthly_summary.map RunwayRow.balance
        = balancesFrom initial
            ((calculate_runway es initial expense monthsAhead
              currentMonth).monthly_summary.map RunwayRow.netFlow)) ∧
      ((calculate_runway es initial expense monthsAhead
          currentMonth).runway_months
        = (((calculate_runway es initial expense monthsAhead
              currentMonth).monthly_summary.map
            RunwayRow.balance).takeWhile (fun b => decide (0 < b))).length) ∧
      (calculate_runway es initial expense monthsAhead
          currentMonth).runway_months ≤ monthsAhead ∧
      (∀ j : ℕ, j < (calculate_runway es initial expense monthsAhead
          currentMonth).runway_months →
        0 < ((calculate_runway es initial expense monthsAhead
          currentMonth).monthly_summary.map RunwayRow.balance).getD j 0) ∧
      ((calculate_runway es initial expense monthsAhead
          currentMonth).runway_months < monthsAhead →
        ((calculate_runway es initial expense monthsAhead
          currentMonth).monthly_summary.map RunwayRow.balance).getD
            (calculate_runway es initial expense monthsAhead
              currentMonth).runway_months 0 ≤ 0) ∧
      ((∀ r ∈ (calculate_runway es initial expense monthsAhead
          currentMonth).monthly_summary, 0 < r.balance) →
        (calculate_runway es initial expense monthsAhead
          currentMonth).runway_months = monthsAhead)) ∧
    (∀ (init : ℚ) (ns : List ℚ),
      (0 < ns.length →
        (balancesFrom init ns).getD 0 0 = init + ns.getD 0 0) ∧
      (∀ j : ℕ, j + 1 < ns.length →
        (balancesFrom init ns).getD (j + 1) 0
          = (balancesFrom init ns).getD j 0 + ns.getD (j + 1) 0)) := by
  refine ⟨?_, ?_, ?_⟩
  · intro i2 e2 n2 M2
    rfl
  · intro es hne hn
    have hemp : es.isEmpty = false := by
      cases es with
      | nil => exact absurd rfl hne
      | cons a l => rfl
    have hf : forecast_cash_flow es currentMonth monthsAhead true
        = cumRows 0 (forecastRows es currentMonth monthsAhead) :=
      forecast_fill_eq es currentMonth monthsAhead hemp
    have hflen : (forecast_cash_flow es currentMonth
        monthsAhead true).length = monthsAhead := by
      rw [hf, cumRows_length, forecastRows_length]
    have hfemp : (forecast_cash_flow es currentMonth
        monthsAhead true).isEmpty = false := by
      cases hcase : forecast_cash_flow es currentMonth monthsAhead true with
      | nil =>
        rw [hcase] at hflen
        simp at hflen
        omega
      | cons a l => rfl
    have hR : calculate_runway es initial expense monthsAhead currentMonth
        = { runway_months :=
              (((runwayRows (forecast_cash_flow es currentMonth monthsAhead
                  true) expense initial).map RunwayRow.balance).takeWhile
                (fun b => decide (0 < b))).length
            min_cash_balance :=
              listMinD initial
                ((runwayRows (forecast_cash_flow es currentMonth monthsAhead
                  true) expense initial).map RunwayRow.balance)
            monthly_summary :=
              runwayRows (forecast_cash_flow es currentMonth monthsAhead
                true) expense initial } := by
      unfold calculate_runway
      rw [hemp, hfemp]
      simp
    have hrowlen : (runwayRows (forecast_cash_flow es currentMonth
        monthsAhead true) expense initial).length = monthsAhead := by
      rw [runwayRows_length, hflen]
    refine ⟨?_, ?_, ?_, ?_, ?_, ?_, ?_, ?_⟩
    · rw [hR]
      exact hrowlen
    · rw [hR]
      exact runwayRows_fields _ _ _
    · rw [hR]
      show (runwayRows _ expense initial).map RunwayRow.balance
        = balancesFrom initial
            ((runwayRows _ expense initial).map RunwayRow.netFlow)
      rw [runwayRows_balances, runwayRows_netFlows]
    · rw [hR]
    · rw [hR]
      show (((runwayRows _ expense initial).map
          RunwayRow.balance).takeWhile (fun b => decide (0 < b))).length
        ≤ monthsAhead
      have h1 := takeWhile_pos_le_length
        ((runwayRows (forecast_cash_flow es currentMonth monthsAhead true)
          expense initial).map RunwayRow.balance)
      rw [List.length_map, hrowlen] at h1
      exact h1
    · intro j hj
      rw [hR] at hj ⊢
      exact takeWhile_pos_getD _ j hj
    · intro hlt
      rw [hR] at hlt ⊢
      apply takeWhile_pos_stop
      rw [List.length_map, hrowlen]
      exact hlt
    · intro hall
      rw [hR] at hall ⊢
      show (((runwayRows _ expense initial).map
          RunwayRow.balance).takeWhile (fun b => decide (0 < b))).length
        = monthsAhead
      rw [takeWhile_pos_all]
      · rw [List.length_map, hrowlen]
      · intro b hb
        obtain ⟨r, hr, rfl⟩ := List.mem_map.mp hb
        exact hall r hr
  · intro init ns
    exact ⟨balancesFrom_getD_zero init ns,
      fun j hj => balancesFrom_getD_succ init ns j hj⟩

/-! ### C6 — persisted-schedule precedence -/

/-- **C6** (amended).  A persisted payment schedule whose decoded stage
list is NON-EMPTY is used verbatim, fully replacing template-driven
generation; with no persisted row — or a persisted row whose stage list
decodes to `[]`, which `if saved_stages:` treats as absent — the default
template mapped to the project's business line is applied, falling back
to the catalog-wide default template for an unmapped business line. -/
theorem c6_schedule_precedence (schedules : List ScheduleRow)
    (rid bl : String) (sd dd : Option Date) :
    (∀ r, schedules.find? (fun r2 => r2.record_id = rid) = some r →
      r.stages ≠ [] → selectStages schedules rid bl sd dd = r.stages) ∧
    (schedules.find? (fun r2 => r2.record_id = rid) = none →
      selectStages schedules rid bl sd dd
        = apply_template
            (get_template (get_default_template_for_business bl)) sd dd) ∧
    (∀ r, schedules.find? (fun r2 => r2.record_id = rid) = some r →
      r.stages = [] →
      selectStages schedules rid bl sd dd
        = apply_template
            (get_template (get_default_template_for_business bl)) sd dd) ∧
    (DEFAULT_TEMPLATE_BY_BUSINESS.lookup bl = none →
      get_default_template_for_business bl = DEFAULT_TEMPLATE) ∧
    (∀ t, DEFAULT_TEMPLATE_BY_BUSINESS.lookup bl = some t →
      get_default_template_for_business bl = t) := by
  refine ⟨?_, ?_, ?_, ?_, ?_⟩
  · intro r hfind hne
    unfold selectStages get_project_payment_stages
    rw [hfind]
    dsimp only
    rw [if_pos hne]
  · intro hfind
    unfold selectStages get_project_payment_stages
    rw [hfind]
    dsimp only
    rw [if_neg (by simp)]
  · intro r hfind hnil
    unfold selectStages get_project_payment_stages
    rw [hfind]
    dsimp only
    rw [if_neg (by simp [hnil])]
  · intro h
    unfold get_default_template_for_business
    rw [h]
    rfl
  · intro t h
    unfold get_default_template_for_business
    rw [h]
    rfl

/-- **C6** counterexample.  A persisted schedule EXISTS for `r1` but its
stage list is empty; the claim then demands its (empty) stages verbatim,
yet the code falls through to the business line's template and emits the
4-stage `四笔分期(3-3-3-1)` plan. -/
theorem c6_schedule_precedence_counterexample :
    ([({ record_id := "r1", template_name := "自定义",
         stages := [] } : ScheduleRow)].find?
      (fun r2 => r2.record_id = "r1"))
      = some { record_id := "r1", template_name := "自定义",
               stages := [] } ∧
    selectStages
        [{ record_id := "r1", template_name := "自定义", stages := [] }]
        "r1" "自动化项目" (some ⟨2024, 1, 10⟩) (some ⟨2024, 6, 1⟩)
      = apply_template (get_template "四笔分期(3-3-3-1)")
          (some ⟨2024, 1, 10⟩) (some ⟨2024, 6, 1⟩) ∧
    (selectStages
        [{ record_id := "r1", template_name := "自定义", stages := [] }]
        "r1" "自动化项目" (some ⟨2024, 1, 10⟩)
        (some ⟨2024, 6, 1⟩)).length = 4 ∧
    selectStages
        [{ record_id := "r1", template_name := "自定义", stages := [] }]
        "r1" "自动化项目" (some ⟨2024, 1, 10⟩) (some ⟨2024, 6, 1⟩)
      ≠ [] := by
  refine ⟨rfl, rfl, rfl, ?_⟩
  intro h
  have h4 : (selectStages
      [{ record_id := "r1", template_name := "自定义", stages := [] }]
      "r1" "自动化项目" (some ⟨2024, 1, 10⟩)
      (some ⟨2024, 6, 1⟩)).length = 4 := rfl
  rw [h] at h4
  simp at h4

/-- **C6** witness: a persisted one-stage schedule for `r2` is returned
verbatim, template generation bypassed. -/
theorem c6_schedule_precedence_witness :
    selectStages
        [{ record_id := "r2", template_name := "自定义",
           stages := [{ name := "全款", ratio := 1, date := none }] }]
        "r2" "X" none none
      = [{ name := "全款", ratio := 1, date := none }] :=
  (c6_schedule_precedence
    [{ record_id := "r2", template_name := "自定义",
       stages := [{ name := "全款", ratio := 1, date := none }] }]
    "r2" "X" none none).1
    { record_id := "r2", template_name := "自定义",
      stages := [{ name := "全款", ratio := 1, date := none }] }
    rfl (by simp)

/-! ### C8 — template validation -/

/-- **C8**.  `validate_template` accepts a stage list exactly when the
ratio total lies within 1.0 ± 0.01 and every stage has a non-empty name
and a strictly positive ratio (an empty list is rejected by the sum
check, `|0-1| > 0.01`); in particular ratio totals 0.85 and 1.15 are
rejected — the verdict is returned to the caller, the stages are never
altered. -/
theorem c8_validate_template :
    (∀ stages : List VStage,
      validate_template stages = true ↔
        (|((stages.map VStage.ratio).sum) - 1| ≤ 1/100 ∧
          ∀ s ∈ stages, s.name ≠ "" ∧ 0 < s.ratio)) ∧
    validate_template [⟨"首付款", 0.45⟩, ⟨"尾款", 0.4⟩] = false ∧
    validate_template [⟨"首付款", 0.75⟩, ⟨"尾款", 0.4⟩] = false := by
  have hiff : ∀ stages : List VStage,
      validate_template stages = true ↔
        (|((stages.map VStage.ratio).sum) - 1| ≤ 1/100 ∧
          ∀ s ∈ stages, s.name ≠ "" ∧ 0 < s.ratio) := by
    intro stages
    unfold validate_template
    split_ifs with h1 h2 h3
    · subst h1
      simp only [List.map_nil, List.sum_nil]
      constructor
      · intro h
        cases h
      · rintro ⟨ha, _⟩
        rw [abs_le] at ha
        have := ha.1
        norm_num at this
    · constructor
      · intro h
        cases h
      · rintro ⟨ha, _⟩
        exact absurd ha (not_le.mpr h2)
    · constructor
      · intro h
        cases h
      · rintro ⟨_, hall⟩
        obtain ⟨s, hs, hbad⟩ := List.any_eq_true.mp h3
        have hb : s.name = "" ∨ s.ratio ≤ 0 := by simpa using hbad
        obtain ⟨hn, hp⟩ := hall s hs
        rcases hb with hb | hb
        · exact hn hb
        · linarith
    · constructor
      · intro _
        refine ⟨not_lt.mp h2, fun s hs => ?_⟩
        constructor
        · intro hname
          apply h3
          apply List.any_eq_true.mpr
          exact ⟨s, hs, by simp [hname]⟩
        · by_contra hr
          apply h3
          apply List.any_eq_true.mpr
          exact ⟨s, hs, by simp [not_lt.mp hr]⟩
      · intro _
        rfl
  refine ⟨hiff, ?_, ?_⟩
  · cases hb : validate_template [⟨"首付款", 0.45⟩, ⟨"尾款", 0.4⟩] with
    | false => rfl
    | true =>
      obtain ⟨ha, _⟩ := (hiff _).mp hb
      simp only [List.map_cons, List.map_nil, List.sum_cons,
        List.sum_nil] at ha
      rw [abs_le] at ha
      have := ha.1
      norm_num at this
  · cases hb : validate_template [⟨"首付款", 0.75⟩, ⟨"尾款", 0.4⟩] with
    | false => rfl
    | true =>
      obtain ⟨ha, _⟩ := (hiff _).mp hb
      simp only [List.map_cons, List.map_nil, List.sum_cons,
        List.sum_nil] at ha
      rw [abs_le] at ha
      have := ha.2
      norm_num at this

/-- **C8** witness: the one-stage full-payment template (ratio 1) is
accepted. -/
theorem c8_validate_template_witness :
    validate_template [⟨"全款", 1⟩] = true :=
  ((c8_validate_template).1 [⟨"全款", 1⟩]).mpr
    ⟨by norm_num, by
      intro s hs
      simp only [List.mem_singleton] at hs
      subst hs
      exact ⟨by decide, by norm_num⟩⟩

/-! ### C9 — win-probability parsing -/

theorem dropWhile_isSpace_eq_self (l : List Char)
    (h : ∀ c ∈ l, isSpace c = false) : l.dropWhile isSpace = l := by
  cases l with
  | nil => rfl
  | cons x xs =>
    rw [List.dropWhile_cons]
    rw [h x (by simp)]
    simp

theorem stripChars_eq_self (cs : List Char)
    (h : ∀ c ∈ cs, isSpace c = false) : stripChars cs = cs := by
  unfold stripChars
  rw [dropWhile_isSpace_eq_self cs h]
  rw [dropWhile_isSpace_eq_self cs.reverse
    (fun c hc => h c (List.mem_reverse.mp hc))]
  exact List.reverse_reverse cs

theorem parseNumeric_nil : parseNumeric [] = none := rfl

theorem contains_eq_true_of_mem {cs : List Char} {c : Char} (h : c ∈ cs) :
    cs.contains c = true := by
  show cs.elem c = true
  exact List.elem_iff.mpr h

theorem contains_eq_false_of_not_mem {cs : List Char} {c : Char}
    (h : c ∉ cs) : cs.contains c = false := by
  cases hc : cs.contains c with
  | false => rfl
  | true =>
    exact absurd (List.elem_iff.mp (show cs.elem c = true from hc)) h

theorem splitOnChar_of_not_mem (c : Char) (l : List Char) (h : c ∉ l) :
    splitOnChar c l = [l] := by
  induction l with
  | nil => rfl
  | cons x xs ih =>
    have hx : ¬ (x = c) := fun he => h (he ▸ List.mem_cons_self x xs)
    have hxs : c ∉ xs := fun hm => h (List.mem_cons_of_mem x hm)
    simp only [splitOnChar]
    rw [if_neg hx, ih hxs]

theorem splitOnChar_append (c : Char) (as bs : List Char) (h : c ∉ as) :
    splitOnChar c (as ++ c :: bs) = as :: splitOnChar c bs := by
  induction as with
  | nil =>
    show splitOnChar c (c :: bs) = [] :: splitOnChar c bs
    simp [splitOnChar]
  | cons x xs ih =>
    have hx : ¬ (x = c) := fun he => h (he ▸ List.mem_cons_self x xs)
    have hxs : c ∉ xs := fun hm => h (List.mem_cons_of_mem x hm)
    show splitOnChar c (x :: (xs ++ c :: bs)) = (x :: xs) :: splitOnChar c bs
    simp only [splitOnChar]
    rw [if_neg hx, ih hxs]

/-- Plain-number case of `_parse_rate_percent._one`: a clean decimal cell
(no whitespace, `%` or dash) parses to its numeric value. -/
theorem parseRateRaw_plain (cs : List Char) (x : ℚ)
    (hchars : ∀ c ∈ cs, isSpace c = false ∧ c ≠ '%' ∧ c ≠ '-')
    (hnan : toLowerStr cs ≠ "nan".toList)
    (hnone : toLowerStr cs ≠ "none".toList)
    (hp : parseNumeric cs = some x) :
    parseRateRaw (String.mk cs) = some x := by
  have hne : cs ≠ [] := by
    intro rfl2
    subst rfl2
    rw [parseNumeric_nil] at hp
    cases hp
  have hstrip : stripChars cs = cs :=
    stripChars_eq_self cs (fun c hc => (hchars c hc).1)
  have htl : (String.mk cs).toList = cs := rfl
  unfold parseRateRaw
  rw [htl, hstrip]
  rw [if_neg (by
    rintro (h | h | h)
    exacts [hne h, hnan h, hnone h])]
  have hfil : cs.filter (fun c => decide (¬ (c = '%'))) = cs := by
    rw [List.filter_eq_self]
    intro c hc
    simp [(hchars c hc).2.1]
  rw [hfil, hstrip]
  unfold parseRateClean
  rw [contains_eq_false_of_not_mem
    (fun hm => (hchars '-' hm).2.2 rfl)]
  simpa using hp

/-- Percent-string case: `"X%"` parses to the value of `X`. -/
theorem parseRateRaw_percent (cs : List Char) (x : ℚ)
    (hchars : ∀ c ∈ cs, isSpace c = false ∧ c ≠ '%' ∧ c ≠ '-')
    (hp : parseNumeric cs = some x) :
    parseRateRaw (String.mk (cs ++ ['%'])) = some x := by
  have hstrip : stripChars (cs ++ ['%']) = cs ++ ['%'] := by
    apply stripChars_eq_self
    intro c hc
    rcases List.mem_append.mp hc with h | h
    · exact (hchars c h).1
    · simp only [List.mem_singleton] at h
      subst h
      rfl
  have htl : (String.mk (cs ++ ['%'])).toList = cs ++ ['%'] := rfl
  have hlower : toLowerStr (cs ++ ['%']) = toLowerStr cs ++ ['%'] := by
    unfold toLowerStr
    rw [List.map_append]
    rfl
  unfold parseRateRaw
  rw [htl, hstrip]
  rw [if_neg (by
    rintro (h | h | h)
    · exact absurd h (by simp)
    · rw [hlower] at h
      have := congrArg List.getLast? h
      rw [List.getLast?_concat] at this
      cases this
    · rw [hlower] at h
      have := congrArg List.getLast? h
      rw [List.getLast?_concat] at this
      cases this)]
  have hfil : (cs ++ ['%']).filter (fun c => decide (¬ (c = '%'))) = cs := by
    rw [List.filter_append]
    have h1 : cs.filter (fun c => decide (¬ (c = '%'))) = cs := by
      rw [List.filter_eq_self]
      intro c hc
      simp [(hchars c hc).2.1]
    have h2 : (['%'] : List Char).filter
        (fun c => decide (¬ (c = '%'))) = [] := rfl
    rw [h1, h2, List.append_nil]
  rw [hfil]
  rw [stripChars_eq_self cs (fun c hc => (hchars c hc).1)]
  unfold parseRateClean
  rw [contains_eq_false_of_not_mem
    (fun hm => (hchars '-' hm).2.2 rfl)]
  simpa using hp

/-- Dash-range case of `_parse_rate_percent._one`: `"A-B"` with two clean
decimal parts parses to the arithmetic midpoint of their values. -/
theorem parseRateRaw_range (as bs : List Char) (x y : ℚ)
    (hcharsA : ∀ c ∈ as, isSpace c = false ∧ c ≠ '%' ∧ c ≠ '-')
    (hcharsB : ∀ c ∈ bs, isSpace c = false ∧ c ≠ '%' ∧ c ≠ '-')
    (hpa : parseNumeric as = some x) (hpb : parseNumeric bs = some y) :
    parseRateRaw (String.mk (as ++ '-' :: bs)) = some ((x + y) / 2) := by
  have hneA : as ≠ [] := by
    intro h
    rw [h, parseNumeric_nil] at hpa
    cases hpa
  have hneB : bs ≠ [] := by
    intro h
    rw [h, parseNumeric_nil] at hpb
    cases hpb
  have hdA : '-' ∉ as := fun hm => (hcharsA '-' hm).2.2 rfl
  have hdB : '-' ∉ bs := fun hm => (hcharsB '-' hm).2.2 rfl
  have hmem : ∀ c ∈ as ++ '-' :: bs, isSpace c = false ∧ ¬ (c = '%') := by
    intro c hc
    rcases List.mem_append.mp hc with h | h
    · exact ⟨(hcharsA c h).1, (hcharsA c h).2.1⟩
    · rcases List.mem_cons.mp h with rfl | h
      · exact ⟨rfl, by decide⟩
      · exact ⟨(hcharsB c h).1, (hcharsB c h).2.1⟩
  have hstrip : stripChars (as ++ '-' :: bs) = as ++ '-' :: bs :=
    stripChars_eq_self _ (fun c hc => (hmem c hc).1)
  have hdashmem : '-' ∈ as ++ '-' :: bs :=
    List.mem_append.mpr (Or.inr (List.mem_cons_self _ _))
  have hlowdash : '-' ∈ toLowerStr (as ++ '-' :: bs) := by
    unfold toLowerStr
    have hmm := List.mem_map_of_mem Char.toLower hdashmem
    simpa using hmm
  have hparts :
      (((splitOnChar '-' (as ++ '-' :: bs)).map stripChars).filter
        (fun p => p ≠ [])) = [as, bs] := by
    rw [splitOnChar_append '-' as bs hdA,
      splitOnChar_of_not_mem '-' bs hdB]
    simp only [List.map_cons, List.map_nil,
      stripChars_eq_self as (fun c hc => (hcharsA c hc).1),
      stripChars_eq_self bs (fun c hc => (hcharsB c hc).1)]
    simp [hneA, hneB]
  unfold parseRateRaw
  rw [show (String.mk (as ++ '-' :: bs)).toList = as ++ '-' :: bs from rfl,
    hstrip]
  rw [if_neg ?guards]
  case guards =>
    rintro (h | h | h)
    · simp at h
    · rw [h] at hlowdash
      simp at hlowdash
    · rw [h] at hlowdash
      simp at hlowdash
  have hfil : (as ++ '-' :: bs).filter (fun c => decide (¬ (c = '%')))
      = as ++ '-' :: bs := by
    rw [List.filter_eq_self]
    intro c hc
    simp [(hmem c hc).2]
  rw [hfil, hstrip]
  unfold parseRateClean
  rw [contains_eq_true_of_mem hdashmem]
  rw [if_pos rfl]
  rw [hparts]
  show (match parseNumeric as, parseNumeric bs with
    | some x2, some y2 => some ((x2 + y2) / 2)
    | _, _ => parseNumeric (as ++ '-' :: bs)) = some ((x + y) / 2)
  rw [hpa, hpb]

/-- **C9**.  Win-probability parsing maps a clean plain decimal or
percent string to its numeric value and a dash-separated range to the
arithmetic midpoint of its two endpoints; every parsed value that
survives is in [0, 100], out-of-range and unparsable values become NaN
(`none`), a NaN rate contributes 0 to the predicted amount
(`fillna(0.0)`), and the column parse maps each cell independently — one
bad cell never aborts the batch. -/
theorem c9_win_probability_parsing :
    (∀ (v : String) (q : ℚ), parse_rate_percent v = some q →
      0 ≤ q ∧ q ≤ 100) ∧
    (∀ (cs : List Char) (x : ℚ),
      (∀ c ∈ cs, isSpace c = false ∧ c ≠ '%' ∧ c ≠ '-') →
      toLowerStr cs ≠ "nan".toList → toLowerStr cs ≠ "none".toList →
      parseNumeric cs = some x →
      parseRateRaw (String.mk cs) = some x ∧
      parseRateRaw (String.mk (cs ++ ['%'])) = some x) ∧
    (∀ (as bs : List Char) (x y : ℚ),
      (∀ c ∈ as, isSpace c = false ∧ c ≠ '%' ∧ c ≠ '-') →
      (∀ c ∈ bs, isSpace c = false ∧ c ≠ '%' ∧ c ≠ '-') →
      parseNumeric as = some x → parseNumeric bs = some y →
      parseRateRaw (String.mk (as ++ '-' :: bs)) = some ((x + y) / 2)) ∧
    (∀ v : String, parseRateRaw v = none → parse_rate_percent v = none) ∧
    (∀ (v : String) (q : ℚ), parseRateRaw v = some q →
      ¬ (0 ≤ q ∧ q ≤ 100) → parse_rate_percent v = none) ∧
    (∀ amt decay : ℚ, systemPredAmount amt none decay = 0) ∧
    (∀ vs : List String, (parseRateColumn vs).length = vs.length ∧
      ∀ v2 : String, parseRateColumn (vs ++ [v2])
        = parseRateColumn vs ++ [parse_rate_percent v2]) := by
  refine ⟨?_, ?_, ?_, ?_, ?_, ?_, ?_⟩
  · intro v q h
    unfold parse_rate_percent at h
    cases hr : parseRateRaw v with
    | none =>
      rw [hr] at h
      cases h
    | some q2 =>
      rw [hr] at h
      simp only [Option.some_bind] at h
      split at h
      · rename_i hcond
        cases h
        exact hcond
      · cases h
  · intro cs x hchars hnan hnone hp
    exact ⟨parseRateRaw_plain cs x hchars hnan hnone hp,
      parseRateRaw_percent cs x hchars hp⟩
  · exact parseRateRaw_range
  · intro v h
    unfold parse_rate_percent
    rw [h]
    rfl
  · intro v q h hnot
    unfold parse_rate_percent
    rw [h]
    simp only [Option.some_bind]
    rw [if_neg hnot]
  · intro amt decay
    unfold systemPredAmount
    simp
  · intro vs
    refine ⟨by simp [parseRateColumn], ?_⟩
    intro v2
    unfold parseRateColumn
    simp

/-- **C9** witness: `"50-80"` parses to the midpoint 65 and `"80%"` to
80 (both inside [0, 100]). -/
theorem c9_win_probability_parsing_witness :
    parseRateRaw (String.mk ("50".toList ++ '-' :: "80".toList))
      = some 65 ∧
    parseRateRaw (String.mk ("80".toList ++ ['%'])) = some 80 := by
  have h1 := (c9_win_probability_parsing).2.2.1 "50".toList "80".toList
    50 80 (by decide) (by decide) (by decide) (by decide)
  have h2 := ((c9_win_probability_parsing).2.1 "80".toList 80
    (by decide) (by decide) (by decide) (by decide)).2
  constructor
  · rw [h1]
    rw [show ((50 : ℚ) + 80) / 2 = 65 from by norm_num]
  · exact h2

/-! ### C7 — calendar month arithmetic -/

/-- **C7**.  For every valid base date and every (possibly negative)
month offset, `_add_months` lands exactly `k` calendar months away
(month index shifts by `k`) with the day-of-month clamped to the last
valid day of the target month, producing a valid date; in particular
2024-01-31 + 1 month = 2024-02-29 (leap year), 2023-01-31 + 1 month =
2023-02-28, never 2024-03-02; and `apply_template` dates each stage by
exactly this shift applied to its base date. -/
theorem c7_add_months (d : Date) (k : ℤ) (hd : d.Valid) :
    monthIndex (addMonths d k) = monthIndex d + k ∧
    (addMonths d k).day
      = min d.day
          (daysInMonth (addMonths d k).year (addMonths d k).month) ∧
    (addMonths d k).Valid ∧
    addMonths ⟨2024, 1, 31⟩ 1 = ⟨2024, 2, 29⟩ ∧
    addMonths ⟨2023, 1, 31⟩ 1 = ⟨2023, 2, 28⟩ ∧
    addMonths ⟨2024, 1, 31⟩ 1 ≠ ⟨2024, 3, 2⟩ ∧
    (∀ (ts : List TemplateStage) (sd dd : Option Date),
      (apply_template ts sd dd).map SavedStage.date
        = ts.map (fun st =>
            (if st.base = "开始时间" then sd else dd).map
              (fun b => addMonths b st.offset_months))) := by
  refine ⟨addMonths_monthIndex d k, rfl, addMonths_valid d k hd,
    by decide, by decide, by decide, ?_⟩
  intro ts sd dd
  unfold apply_template
  rw [List.map_map]
  rfl

/-- **C7** witness: the leap-year clamp instance, applied to the valid
base date 2024-01-31 with offset 1. -/
theorem c7_add_months_witness :
    addMonths ⟨2024, 1, 31⟩ 1 = ⟨2024, 2, 29⟩ :=
  (c7_add_months ⟨2024, 1, 31⟩ 1 (by decide)).2.2.2.1

/-- **C3** witness: one dated entry, a 2-month horizon — the runway
table has exactly 2 rows. -/
theorem c3_runway_witness :
    (calculate_runway
      [{ projectName := "甲", businessLine := "A", stageType := "首付款",
         amount := 50, payDate := ⟨2024, 8, 1⟩, month := 7 }]
      100 30 2 7).monthly_summary.length = 2 :=
  ((c3_runway 100 30 2 7).2.1
    [{ projectName := "甲", businessLine := "A", stageType := "首付款",
       amount := 50, payDate := ⟨2024, 8, 1⟩, month := 7 }]
    (by simp) (by norm_num)).1

end SalesForecast
